import Mathlib

/-!
# Munin-Core: verification of the intake / quota / sniffing claims

A shallow embedding of the parts of Munin-Core (a log-ingestion pipeline)
that the specification's claims talk about:

* `Sha256` — executable SHA-256 over byte lists (used by `sha256_file` and
  both `content_hash` functions in the source);
* `Normalize` — `normalize.py`'s `content_hash` and `chooseParser`;
* `Watcher` — `scripts/file_watcher.py`'s `process_one_file`,
  `file_manifest_has_sha`, and the quarantine purge (`purge_quarantine`,
  `_paired_delete`);
* `Quota` — `storage/quota.py`'s `enforce_quota`;
* `ApiQuota` — `api/utils/quota.py`'s `enforce_quota_loop`;
* `Backend` — `storage/sqlite_backend.py`'s `_prune_oldest_rows`;
* `Sniffer` — `ingestor/sniffer.py`'s `sniff_file` over an abstract handler
  registry.

Machine integers are modelled as `Nat` with explicit `% 2^32` where 32-bit
overflow matters; timestamps are seconds-since-epoch `Nat` (the source stores
ISO-8601 UTC strings, whose lexicographic order agrees with chronological
order); Python float confidences are modelled as `ℚ` (the source only ever
compares them). Effects (SQL tables, directories) are explicit state passed
through pure functions.
-/

/-! ## SHA-256 (hashlib.sha256), executable over byte lists -/

namespace Sha256

/-- Truncate to a 32-bit word. -/
def w32 (x : Nat) : Nat := x % 4294967296

/-- 32-bit right rotation. -/
def rotr (n x : Nat) : Nat := w32 ((x >>> n) ||| (x <<< (32 - n)))

/-- 32-bit complement. -/
def compl32 (x : Nat) : Nat := 4294967295 ^^^ x

def chFun (x y z : Nat) : Nat := (x &&& y) ^^^ (compl32 x &&& z)

def majFun (x y z : Nat) : Nat := (x &&& y) ^^^ (x &&& z) ^^^ (y &&& z)

def bigSigma0 (x : Nat) : Nat := rotr 2 x ^^^ rotr 13 x ^^^ rotr 22 x

def bigSigma1 (x : Nat) : Nat := rotr 6 x ^^^ rotr 11 x ^^^ rotr 25 x

def smallSigma0 (x : Nat) : Nat := rotr 7 x ^^^ rotr 18 x ^^^ (x >>> 3)

def smallSigma1 (x : Nat) : Nat := rotr 17 x ^^^ rotr 19 x ^^^ (x >>> 10)

/-- The 64 SHA-256 round constants. -/
def roundK : List Nat :=
  [1116352408, 1899447441, 3049323471, 3921009573, 961987163, 1508970993,
   2453635748, 2870763221, 3624381080, 310598401, 607225278, 1426881987,
   1925078388, 2162078206, 2614888103, 3248222580, 3835390401, 4022224774,
   264347078, 604807628, 770255983, 1249150122, 1555081692, 1996064986,
   2554220882, 2821834349, 2952996808, 3210313671, 3336571891, 3584528711,
   113926993, 338241895, 666307205, 773529912, 1294757372, 1396182291,
   1695183700, 1986661051, 2177026350, 2456956037, 2730485921, 2820302411,
   3259730800, 3345764771, 3516065817, 3600352804, 4094571909, 275423344,
   430227734, 506948616, 659060556, 883997877, 958139571, 1322822218,
   1537002063, 1747873779, 1955562222, 2024104815, 2227730452, 2361852424,
   2428436474, 2756734187, 3204031479, 3329325298]

/-- Initial hash state. -/
def initH : List Nat :=
  [1779033703, 3144134277, 1013904242, 2773480762,
   1359893119, 2600822924, 528734635, 1541459225]

/-- Big-endian bytes of `v` on `n` bytes. -/
def beBytes : Nat → Nat → List Nat
  | 0, _ => []
  | n + 1, v => beBytes n (v / 256) ++ [v % 256]

/-- SHA-256 message padding: append 0x80, zero bytes, then the 64-bit
bit-length, reaching a multiple of 64 bytes. -/
def pad (msg : List Nat) : List Nat :=
  let L := msg.length
  let k := (119 - (L % 64)) % 64
  msg ++ [0x80] ++ List.replicate k 0 ++ beBytes 8 (8 * L)

/-- Pack bytes into big-endian 32-bit words. -/
def toWords : List Nat → List Nat
  | a :: b :: c :: d :: rest =>
      (a * 16777216 + b * 65536 + c * 256 + d) :: toWords rest
  | _ => []

/-- Split a word list into 16-word blocks. -/
def chunk16 : List Nat → List (List Nat)
  | [] => []
  | w :: ws => ((w :: ws).take 16) :: chunk16 ((w :: ws).drop 16)
  termination_by l => l.length
  decreasing_by simp [List.length_drop]; omega

/-- One message-schedule extension step: append word `n` computed from
words `n-16`, `n-15`, `n-7`, `n-2`. -/
def scheduleStep (w : List Nat) : List Nat :=
  let n := w.length
  w ++ [w32 (w.getD (n - 16) 0 + smallSigma0 (w.getD (n - 15) 0) +
             w.getD (n - 7) 0 + smallSigma1 (w.getD (n - 2) 0))]

/-- Extend a 16-word block to the 64-word message schedule. -/
def schedule (ws : List Nat) : List Nat :=
  (List.range 48).foldl (fun w _ => scheduleStep w) ws

/-- One compression round on the state `[a,b,c,d,e,f,g,h]`. -/
def round1 (st : List Nat) (kw : Nat × Nat) : List Nat :=
  match st with
  | [a, b, c, d, e, f, g, h] =>
      let t1 := w32 (h + bigSigma1 e + chFun e f g + kw.1 + kw.2)
      let t2 := w32 (bigSigma0 a + majFun a b c)
      [w32 (t1 + t2), a, b, c, w32 (d + t1), e, f, g]
  | _ => st

/-- Compress one 16-word block into the running hash state. -/
def compress (hs : List Nat) (block : List Nat) : List Nat :=
  let st := (roundK.zip (schedule block)).foldl round1 hs
  (hs.zip st).map (fun p => w32 (p.1 + p.2))

/-- SHA-256 digest (32 bytes) of a byte list. -/
def hash (msg : List Nat) : List Nat :=
  let hs := (chunk16 (toWords (pad msg))).foldl compress initH
  hs.foldr (fun h acc => beBytes 4 h ++ acc) []

def hexDigit (n : Nat) : Char :=
  "0123456789abcdef".toList.getD n '0'

/-- Lower-case hex encoding of a byte list (Python's `hexdigest()`). -/
def hexOfBytes (bs : List Nat) : String :=
  String.mk ((bs.map (fun b => [hexDigit (b / 16), hexDigit (b % 16)])).flatten)

/-- `hashlib.sha256(msg).hexdigest()`. -/
def hexdigest (msg : List Nat) : String := hexOfBytes (hash msg)

end Sha256

/-! ## normalize.py — NormalizedEvent content hashing and parser choice -/

namespace Normalize

/-- A JSON scalar, the value type of `attrs` ("mapping of string to
arbitrary scalar"). -/
inductive JVal where
  | jnull
  | jbool (b : Bool)
  | jnum (n : Int)
  | jstr (s : String)
deriving DecidableEq

/-- `normalize.py`'s NormalizedEvent dict. `content_hash` reads the five
keys via `ev.get(...)`, which yields `None` when absent, so every field is
an `Option`. `attrs` is an association list carrying insertion order (a
Python dict iterates in insertion order; keys are unique). -/
structure NormalizedEvent where
  source_path : Option String
  source_type : Option String
  line_number : Option Int
  event_time : Option String
  level : Option String
  message : Option String
  attrs : Option (List (String × JVal))
  raw_excerpt : Option String

/-- JSON string escaping for `json.dumps` (quote and backslash; the control
character escapes are elided — they do not affect any stated property). -/
def jsonEscape (s : String) : String :=
  String.mk (s.toList.foldr
    (fun c acc => if c = '"' ∨ c = '\\' then '\\' :: c :: acc else c :: acc) [])

def encJVal : JVal → String
  | .jnull => "null"
  | .jbool true => "true"
  | .jbool false => "false"
  | .jnum n => toString n
  | .jstr s => "\"" ++ jsonEscape s ++ "\""

def encOptStr : Option String → String
  | none => "null"
  | some s => "\"" ++ jsonEscape s ++ "\""

/-- `json.dumps(..., sort_keys=True)` sorts every dict's keys, so `attrs`
is serialized in key order regardless of insertion order. -/
def sortAttrs (l : List (String × JVal)) : List (String × JVal) :=
  List.insertionSort (fun a b => a.1 ≤ b.1) l

def encAttrs : Option (List (String × JVal)) → String
  | none => "null"
  | some l =>
      "\x7b" ++ String.intercalate ", "
        ((sortAttrs l).map (fun p => "\"" ++ jsonEscape p.1 ++ "\": " ++ encJVal p.2))
      ++ "\x7d"

/-- The serialization of
`{"source_path": …, "event_time": …, "level": …, "message": …, "attrs": …}`
under `json.dumps(key, sort_keys=True)`: the five keys appear in
lexicographic order `attrs < event_time < level < message < source_path`,
with the default `", "` / `": "` separators. -/
def keyJson (ev : NormalizedEvent) : String :=
  "\x7b\"attrs\": " ++ encAttrs ev.attrs ++
  ", \"event_time\": " ++ encOptStr ev.event_time ++
  ", \"level\": " ++ encOptStr ev.level ++
  ", \"message\": " ++ encOptStr ev.message ++
  ", \"source_path\": " ++ encOptStr ev.source_path ++ "\x7d"

def strBytes (s : String) : List Nat :=
  s.toUTF8.toList.map (fun b => b.toNat)

/-- `normalize.content_hash`: SHA-256 hex digest of the sorted-keys JSON
serialization of the five semantic fields. -/
def content_hash (ev : NormalizedEvent) : String :=
  Sha256.hexdigest (strBytes (keyJson ev))

/-- "Identical attrs" for two events: both absent, or equal as key→value
mappings (same bindings, unique keys, insertion order free). -/
def attrsEquiv : Option (List (String × JVal)) → Option (List (String × JVal)) → Prop
  | none, none => True
  | some l1, some l2 => l1.Perm l2 ∧ (l1.map Prod.fst).Nodup
  | _, _ => False

end Normalize

/-! ## parsers/ — the line-parser registry of `parsers/base.py` -/

namespace Parsers

/-- An entry of `parsers.base.REGISTRY`: every parser has a mandatory
`sniff(sample, filename) -> float` (modelled over `ℚ`; the source only
compares confidences). -/
structure PEntry where
  name : String
  sniff : String → String → ℚ

/-- `parsers/plaintext.py`: `PlainTextParser.sniff` is the fixed low
constant 0.3 ("default fallback; give low confidence"). -/
def plaintextSniff : String → String → ℚ := fun _ _ => 3 / 10

/-- Spec-side selection rule, stated from the spec's words for the
refinement proofs: the highest-scoring element, ties broken in favour of
the earliest (first-registered) one. -/
def firstArgmax {α : Type} (score : α → ℚ) : List α → Option α
  | [] => none
  | x :: xs =>
      match firstArgmax score xs with
      | none => some x
      | some m => if score x < score m then some m else some x

/-- `normalize.chooseParser`: `sorted(..., key=score, reverse=True)[0]`.
Python's sort is stable, so equal scores keep registration order; the
model sorts descending with the same stability and takes the head.
(The source raises `RuntimeError` on an empty registry; the model returns
`none` there.) -/
def chooseParser (reg : List PEntry) (sample filename : String) : Option PEntry :=
  (List.insertionSort
    (fun a b => b.sniff sample filename ≤ a.sniff sample filename) reg).head?

end Parsers

/-! ## ingestor/sniffer.py and ingestor/handlers/registry.py -/

namespace Sniffer

/-- An entry of the handler registry (`REGISTRY: dict[str, type]`,
iterated in registration order). `sniffFn` is `none` for handlers without
a `sniff` method (they are skipped by `hasattr(handler, "sniff")`). -/
structure RegEntry where
  name : String
  sniffFn : Option (String → String → ℚ)

/-- What `sniff_file` returns. -/
inductive SniffResult where
  | evtxHandler
  | handler (name : String)
  | rawHandler
  | noMatch
deriving DecidableEq

/-- Score of an entry (only meaningful for entries with a sniff method). -/
def scoreOf (sample fname : String) (e : RegEntry) : ℚ :=
  match e.sniffFn with
  | none => 0
  | some f => f sample fname

/-- The registered handlers that have a `sniff` method. -/
def withSniff (reg : List RegEntry) : List RegEntry :=
  reg.filter (fun e => e.sniffFn.isSome)

/-- One iteration of the sniffing loop: skip handlers without `sniff`,
keep the incumbent unless the new confidence is strictly greater
(`if conf > best_conf`). -/
def loopStep (sample fname : String) (acc : Option RegEntry × ℚ) (e : RegEntry) :
    Option RegEntry × ℚ :=
  match e.sniffFn with
  | none => acc
  | some f =>
      let conf := f sample fname
      if acc.2 < conf then (some e, conf) else acc

/-- The `for name, handler_cls in REGISTRY.items()` loop of `sniff_file`,
starting from `best_handler_cls = None`, `best_conf = 0.0`. -/
def sniffLoop (sample fname : String) (reg : List RegEntry)
    (acc : Option RegEntry × ℚ) : Option RegEntry × ℚ :=
  reg.foldl (loopStep sample fname) acc

/-- Python's `str.strip()`: drop leading and trailing whitespace. -/
def pyStrip (s : String) : String :=
  String.mk (((s.toList.dropWhile Char.isWhitespace).reverse.dropWhile
    Char.isWhitespace).reverse)

/-- The sample: the first 5 lines of the file, each `.strip()`ed, joined
with `"\n"`. -/
def sampleText (fileLines : List String) : String :=
  String.intercalate "\n" ((fileLines.take 5).map pyStrip)

/-- `ingestor.sniffer.sniff_file`. `isEvtxMagic` abstracts the 7-byte
`ElfFile` header check that short-circuits textual sniffing; `fileLines`
are the file's decoded lines. Returns which handler is selected
(`noMatch` models the `return None` that routes to quarantine). -/
def sniff_file (isEvtxMagic : Bool) (reg : List RegEntry)
    (fileLines : List String) (fname : String) : SniffResult :=
  if isEvtxMagic then .evtxHandler
  else
    let sample := sampleText fileLines
    match sniffLoop sample fname reg (none, 0) with
    | (some e, _) => .handler e.name
    | (none, _) => if sample ≠ "" then .rawHandler else .noMatch

/-- `ingestor.handlers.registry.sniff_best_handler`: same scoring loop,
but `return best_handler or RawHandler()` — always falls back to raw. -/
def sniff_best_handler (reg : List RegEntry) (sample fname : String) : SniffResult :=
  match sniffLoop sample fname reg (none, 0) with
  | (some e, _) => .handler e.name
  | (none, _) => .rawHandler

end Sniffer

/-! ## scripts/file_watcher.py — intake and quarantine lifecycle -/

namespace Watcher

inductive ManifestStatus where
  | processing
  | committed
  | deleted
  | error
deriving DecidableEq

/-- A `file_manifest` row (the spec's FileRecord). `ingestedSet` models
`ingested_at_utc IS NOT NULL`, which `file_manifest_mark` sets exactly when
marking `committed` — it records that the row reached `committed` even
after a later transition to `deleted`. -/
structure ManifestRow where
  id : Nat
  relPath : String
  sha256 : String
  bytes : Nat
  sourceHost : String
  sourceApp : String
  status : ManifestStatus
  ingestedSet : Bool
deriving DecidableEq

/-- An `event_occurrence` row inserted by the watcher. On this intake path
`event_time_utc`, `level` and `attrs_json` are always `NULL` (the stream
parser yields `(None, None, msg, None)`); `message` is kept as the line's
bytes (the UTF-8 decode with `errors="replace"` is elided). -/
structure EventRow where
  fileId : Nat
  lineNo : Nat
  byteOffset : Nat
  eventTime : Option String
  level : Option String
  message : List Nat
  attrsJson : Option String
  contentSha : String
deriving DecidableEq

/-- `SELECT 1 FROM file_manifest WHERE sha256 = ? LIMIT 1` — note: any
status counts, not only `committed`. -/
def file_manifest_has_sha (manifest : List ManifestRow) (sha : String) : Bool :=
  manifest.any (fun r => r.sha256 == sha)

/-- `file_manifest_mark`: `UPDATE file_manifest SET status=? WHERE id=?`,
additionally setting `ingested_at_utc` when the new status is `committed`. -/
def file_manifest_mark (manifest : List ManifestRow) (fid : Nat)
    (status : ManifestStatus) : List ManifestRow :=
  manifest.map (fun r =>
    if r.id = fid then
      if status = .committed then { r with status := status, ingestedSet := true }
      else { r with status := status }
    else r)

/-- `file_watcher.content_hash(level, message, attrs_json)`:
`sha256((level or "").strip().upper() + "|" + message + "|" + (attrs_json or "").strip())`. -/
def content_hash (level : Option String) (message : List Nat)
    (attrsJson : Option String) : String :=
  let levelN := (level.getD "").trim.toUpper
  let attrsN := (attrsJson.getD "").trim
  Sha256.hexdigest
    (Normalize.strBytes levelN ++ [124] ++ message ++ [124] ++ Normalize.strBytes attrsN)

/-- `f.readline()` chunking: each chunk ends with the newline byte 10; a
final chunk without a newline is emitted when the file does not end in one;
the empty file yields no chunks. -/
def splitChunksAux (acc : List Nat) : List Nat → List (List Nat)
  | [] => if acc.isEmpty then [] else [acc.reverse]
  | b :: rest =>
      if b = 10 then (acc.reverse ++ [10]) :: splitChunksAux [] rest
      else splitChunksAux (b :: acc) rest

def splitChunks (content : List Nat) : List (List Nat) :=
  splitChunksAux [] content

/-- Python's `.rstrip("\r\n")`: drop trailing CR/LF bytes. -/
def rstripCrLf (bs : List Nat) : List Nat :=
  (bs.reverse.dropWhile (fun b => b = 13 || b = 10)).reverse

/-- The per-line row construction of `process_one_file` step 4:
`line_no` counts from 1, `byte_offset` accumulates raw chunk lengths, and
`content_sha256 = content_hash(None, msg, None)`. -/
def buildRows (fid : Nat) (chunks : List (List Nat)) : List EventRow :=
  (chunks.foldl
    (fun (st : Nat × Nat × List EventRow) chunk =>
      let msg := rstripCrLf chunk
      let row : EventRow :=
        { fileId := fid, lineNo := st.1 + 1, byteOffset := st.2.1,
          eventTime := none, level := none, message := msg, attrsJson := none,
          contentSha := content_hash none msg none }
      (st.1 + 1, st.2.1 + chunk.length, st.2.2 ++ [row]))
    (0, 0, [])).2.2

/-- The database / filesystem state `process_one_file` acts on.
`quarantine` pairs each quarantined file name with its reason note. -/
structure IntakeState where
  manifest : List ManifestRow
  events : List EventRow
  nextId : Nat
  quarantine : List (String × String)
deriving DecidableEq

inductive IntakeOutcome where
  | dupDeleted
  | committedDeleted
deriving DecidableEq

/-- `process_one_file` on a stable file already moved into processing/,
along the non-raising path (exception handling is environmental I/O; the
pure embedding executes the source's normal control flow):
deduplicate on the whole-file SHA-256, else insert a `processing` manifest
row, insert one event row per line (batch flushes only group the inserts),
mark `committed`, delete the file, mark `deleted`. The trailing
`enforce_quota` call only deletes `event_occurrence` rows by age and is
modelled separately (`Quota.enforce_quota`); it touches neither the
manifest nor the outcome. -/
def process_one_file (host app : String) (st : IntakeState) (relPath : String)
    (content : List Nat) : IntakeState × IntakeOutcome :=
  let fileSha := Sha256.hexdigest content
  if file_manifest_has_sha st.manifest fileSha then
    -- duplicate: the new file is unlinked; nothing is inserted
    (st, .dupDeleted)
  else
    let fid := st.nextId
    let inserted := st.manifest ++
      [{ id := fid, relPath := relPath, sha256 := fileSha, bytes := content.length,
         sourceHost := host, sourceApp := app, status := .processing,
         ingestedSet := false }]
    let rows := buildRows fid (splitChunks content)
    let m1 := file_manifest_mark inserted fid .committed
    let m2 := file_manifest_mark m1 fid .deleted
    ({ manifest := m2, events := st.events ++ rows, nextId := fid + 1,
       quarantine := st.quarantine }, .committedDeleted)

/-! ### Quarantine purge (`purge_quarantine`, `_paired_delete`) -/

/-- A file in the quarantine directory. -/
structure QFile where
  name : String
  mtime : Nat
  size : Nat
deriving DecidableEq

/-- Python's `str.endswith`, over the character lists. -/
def strEndsWith (s suf : String) : Bool :=
  decide (suf.toList <:+ s.toList)

def isReasonNote (f : QFile) : Bool :=
  strEndsWith f.name ".reason.txt"

/-- `_paired_delete`: unlink each listed file and its `<name>.reason.txt`. -/
def pairedNames (files : List QFile) : List String :=
  files.map (·.name) ++ files.map (fun f => f.name ++ ".reason.txt")

def pairedDelete (dir : List QFile) (files : List QFile) : List QFile :=
  dir.filter (fun g => !((pairedNames files).contains g.name))

/-- `_dir_size_bytes`: total size of every file in the directory, reason
notes included. -/
def dirSizeBytes (dir : List QFile) : Nat :=
  (dir.map (·.size)).sum

def sortByMtime (files : List QFile) : List QFile :=
  List.insertionSort (fun a b => a.mtime ≤ b.mtime) files

/-- The size-cap selection loop: walk the oldest-first list, stop as soon
as the running size is at or below the cap, otherwise mark the file for
deletion and subtract its size. -/
def selectOldest (cap : Nat) : Int → List QFile → List QFile
  | _, [] => []
  | size, f :: fs =>
      if size ≤ (cap : Int) then []
      else f :: selectOldest cap (size - (f.size : Int)) fs

/-- The files phase 1 deletes: non-note files whose mtime is strictly
older than `now - retention_days * 86400`. -/
def agedFiles (retentionDays now : Nat) (dir : List QFile) : List QFile :=
  dir.filter (fun f =>
    !isReasonNote f && decide ((f.mtime : Int) < (now : Int) - (retentionDays : Int) * 86400))

/-- The directory contents after the purge-by-age phase. -/
def afterAgePurge (retentionDays now : Nat) (dir : List QFile) : List QFile :=
  pairedDelete dir (agedFiles retentionDays now dir)

/-- The files phase 2 marks for deletion (oldest first, until the running
size is at or below the cap). -/
def sizeCapVictims (maxBytes : Nat) (remaining : List QFile) : List QFile :=
  selectOldest maxBytes ((dirSizeBytes remaining : Int))
    (sortByMtime (remaining.filter (fun f => !isReasonNote f)))

/-- `purge_quarantine`: phase 1 deletes (with paired reason notes) every
non-note file strictly older than the retention cutoff; phase 2, only if
the directory size still exceeds the cap, deletes the oldest remaining
non-note files first until the running size is under the cap. -/
def purge_quarantine (retentionDays maxBytes now : Nat) (dir : List QFile) :
    List QFile :=
  let afterAge := afterAgePurge retentionDays now dir
  if dirSizeBytes afterAge ≤ maxBytes then afterAge
  else pairedDelete afterAge (sizeCapVictims maxBytes afterAge)

end Watcher

/-! ## storage/quota.py — single-shot quota enforcement -/

namespace Quota

/-- An `event_occurrence` row as the quota pass sees it: its id and its
(possibly NULL) `event_time_utc`, as a seconds timestamp. -/
structure EvRow where
  id : Nat
  eventTime : Option Int
deriving DecidableEq

/-- A row the retention filter allows deleting:
`event_time_utc IS NOT NULL AND event_time_utc < datetime('now', '-R days')`. -/
def prunable (cutoff : Int) (r : EvRow) : Bool :=
  match r.eventTime with
  | none => false
  | some t => decide (t < cutoff)

/-- SQLite `ORDER BY event_time_utc ASC, id ASC`: NULLs sort first in
ascending order. -/
def evLeB (a b : EvRow) : Bool :=
  match a.eventTime, b.eventTime with
  | none, none => a.id ≤ b.id
  | none, some _ => true
  | some _, none => false
  | some x, some y => decide (x < y) || (decide (x = y) && decide (a.id ≤ b.id))

def evLe (a b : EvRow) : Prop := evLeB a b = true

instance : DecidableRel evLe := fun a b =>
  inferInstanceAs (Decidable (evLeB a b = true))

/-- The ids selected by
`SELECT id FROM event_occurrence ORDER BY event_time_utc ASC, id ASC LIMIT 50000`. -/
def candidateIds (rows : List EvRow) : List Nat :=
  ((List.insertionSort evLe rows).take 50000).map (·.id)

def deletePred (cutoff : Int) (cands : List Nat) (r : EvRow) : Bool :=
  prunable cutoff r && cands.contains r.id

/-- Return value plus the post-state of the table and the alerts emitted
during the call. `storage/quota.py` has no alert mechanism at all, so
`alerts` is always `[]` here. -/
structure QuotaResult where
  rows : List EvRow
  ok : Bool
  freed : Int
  alerts : List String
deriving DecidableEq

/-- `enforce_quota(conn, cfg)`. `sz` abstracts `db_size_bytes` (the on-disk
size of the store including WAL/shadow files) as a function of the table
state; `now` is the wall clock. Below the high watermark it returns
`(True, 0)` untouched; otherwise it performs exactly one bounded DELETE of
retention-expired rows among the 50000 first rows in NULLs-first
`(event_time, id)` order, then reports `(new_size ≤ low watermark, bytes freed)`. -/
def enforce_quota (sz : List EvRow → Nat) (high low : Nat)
    (retentionMinDays : Nat) (now : Int) (rows : List EvRow) : QuotaResult :=
  let size := sz rows
  if size ≤ high then
    { rows := rows, ok := true, freed := 0, alerts := [] }
  else
    let cutoff : Int := now - (retentionMinDays : Int) * 86400
    let cands := candidateIds rows
    let rows2 := rows.filter (fun r => !deletePred cutoff cands r)
    let newSize := sz rows2
    if newSize > low then
      { rows := rows2, ok := false, freed := (size : Int) - (newSize : Int), alerts := [] }
    else
      { rows := rows2, ok := true, freed := (size : Int) - (newSize : Int), alerts := [] }

end Quota

/-! ## api/utils/quota.py — looping quota enforcement over the `logs` table -/

namespace ApiQuota

/-- A `logs` row: `timestamp` is the event time parsed from the line
(nullable in practice, hence the COALESCE in the source), `ingestTime` is
`ingest_time_utc` (NOT NULL, defaulted at insert). -/
structure LogRow where
  id : Nat
  timestamp : Option Int
  ingestTime : Int
deriving DecidableEq

/-- `COALESCE(timestamp, ingest_time_utc)`. -/
def coalTime (r : LogRow) : Int :=
  r.timestamp.getD r.ingestTime

/-- `DELETE FROM logs WHERE <p> LIMIT n` without ORDER BY: delete up to
`n` matching rows; the model takes them in table order (SQLite leaves the
choice unspecified — no property below depends on which matching rows go). -/
def removeUpTo : Nat → (LogRow → Bool) → List LogRow → List LogRow
  | _, _, [] => []
  | 0, _, l => l
  | n + 1, p, r :: rs =>
      if p r then removeUpTo n p rs else r :: removeUpTo (n + 1) p rs

/-- The `STORAGE_HIGH` alert code emitted through `emit_alert`. -/
def storageHighAlert : String := "STORAGE_HIGH"

/-- Result of `enforce_quota_loop`: the surviving rows, the returned
boolean, and the alerts emitted. -/
structure LoopResult where
  rows : List LogRow
  ok : Bool
  alerts : List String
deriving DecidableEq

/-- `enforce_quota_loop`: while the store size exceeds the high watermark,
delete one batch (`PRUNE_DELETE_BATCH`, default 50000, abstracted as
`batch`) of rows with `COALESCE(timestamp, ingest_time_utc) < cutoff`;
if a pass deletes nothing, emit `STORAGE_HIGH` and return `False`;
once at or below the high watermark, return whether the size is at or
below the low watermark. -/
def enforce_quota_loop (sz : List LogRow → Nat) (high low : Nat)
    (cutoff : Int) (batch : Nat) (rows : List LogRow) : LoopResult :=
  if sz rows ≤ high then
    { rows := rows, ok := decide (sz rows ≤ low), alerts := [] }
  else
    if rows.length - (removeUpTo batch (fun r => decide (coalTime r < cutoff)) rows).length
        = 0 then
      { rows := rows, ok := false, alerts := [storageHighAlert] }
    else
      enforce_quota_loop sz high low cutoff batch
        (removeUpTo batch (fun r => decide (coalTime r < cutoff)) rows)
  termination_by rows.length
  decreasing_by
    have hle : ∀ (n : Nat) (p : LogRow → Bool) (l : List LogRow),
        (removeUpTo n p l).length ≤ l.length := by
      intro n p l
      induction l generalizing n with
      | nil => cases n <;> simp [removeUpTo]
      | cons r rs ih =>
          cases n with
          | zero => simp [removeUpTo]
          | succ m =>
              by_cases hp : p r
              · simpa [removeUpTo, hp] using Nat.le_succ_of_le (ih m)
              · simpa [removeUpTo, hp] using ih (m + 1)
    have h2 := hle batch (fun r => decide (coalTime r < cutoff)) rows
    omega

end ApiQuota

/-! ## storage/sqlite_backend.py — size-only pruning of the `events` table -/

namespace Backend

/-- An `events` row of the SQLiteBackend: its id (AUTOINCREMENT, so id
order is insertion order) and its ingest time. The row carries no event
time and the backend has no retention configuration. -/
structure BRow where
  id : Nat
  ingestTime : Int
deriving DecidableEq

/-- One pass of `DELETE FROM events WHERE id IN
(SELECT id FROM events ORDER BY id ASC LIMIT 1000)`: drop the 1000
smallest-id rows. Table row order is immaterial (a SQL table is a bag);
the model keeps the table in id order after a pass. -/
def removeOldestChunk (rows : List BRow) : List BRow :=
  (List.insertionSort (fun a b => a.id ≤ b.id) rows).drop 1000

/-- `SQLiteBackend._prune_oldest_rows(target_size_mb)`: delete oldest rows
in 1000-row chunks while the database file size exceeds the target. There
is no retention check of any kind. `szMB` abstracts `_db_size_mb`.
(When the table is empty but `szMB` still exceeds the target the source
loops forever — file size is not a function of row count in SQLite; the
model returns the unchanged state at that unreachable-in-model point.) -/
def prune_oldest_rows (szMB : List BRow → ℚ) (target : ℚ) (rows : List BRow) :
    List BRow :=
  if szMB rows ≤ target then rows
  else if _h : rows = [] then rows
  else prune_oldest_rows szMB target (removeOldestChunk rows)
  termination_by rows.length
  decreasing_by
    have hlen : (List.insertionSort (fun a b : BRow => a.id ≤ b.id) rows).length
        = rows.length :=
      (List.perm_insertionSort _ rows).length_eq
    have hpos : 0 < rows.length := List.length_pos.mpr _h
    simp only [removeOldestChunk, List.length_drop]
    omega

end Backend

/-! ## Order-relation instances used by the sorting lemmas -/

instance : IsTotal (String × Normalize.JVal) (fun a b => a.1 ≤ b.1) :=
  ⟨fun a b => le_total a.1 b.1⟩

instance : IsTrans (String × Normalize.JVal) (fun a b => a.1 ≤ b.1) :=
  ⟨fun _ _ _ h1 h2 => le_trans h1 h2⟩

instance : IsAntisymm (String × Normalize.JVal) (fun a b => a.1 < b.1) :=
  ⟨fun _ _ h1 h2 => absurd (lt_trans h1 h2) (lt_irrefl _)⟩

instance : IsTotal Watcher.QFile (fun a b => a.mtime ≤ b.mtime) :=
  ⟨fun a b => Nat.le_total a.mtime b.mtime⟩

instance : IsTrans Watcher.QFile (fun a b => a.mtime ≤ b.mtime) :=
  ⟨fun _ _ _ h1 h2 => Nat.le_trans h1 h2⟩

/-! ## Supporting lemmas -/

namespace Normalize

theorem sortAttrs_eq_of_perm {l1 l2 : List (String × JVal)}
    (hp : l1.Perm l2) (hnd : (l1.map Prod.fst).Nodup) :
    sortAttrs l1 = sortAttrs l2 := by
  have hps : (sortAttrs l1).Perm (sortAttrs l2) :=
    (List.perm_insertionSort _ l1).trans
      (hp.trans (List.perm_insertionSort _ l2).symm)
  have hnd1 : ((sortAttrs l1).map Prod.fst).Nodup :=
    (((List.perm_insertionSort _ l1).map Prod.fst).nodup_iff).mpr hnd
  have hnd2 : ((sortAttrs l2).map Prod.fst).Nodup :=
    (((List.perm_insertionSort _ l2).map Prod.fst).nodup_iff).mpr
      ((hp.map Prod.fst).nodup_iff.mp hnd)
  have hs1 : (sortAttrs l1).Pairwise (fun a b => a.1 ≤ b.1) :=
    List.sorted_insertionSort _ l1
  have hs2 : (sortAttrs l2).Pairwise (fun a b => a.1 ≤ b.1) :=
    List.sorted_insertionSort _ l2
  have hne1 : (sortAttrs l1).Pairwise (fun a b => a.1 ≠ b.1) :=
    List.pairwise_map.mp hnd1
  have hne2 : (sortAttrs l2).Pairwise (fun a b => a.1 ≠ b.1) :=
    List.pairwise_map.mp hnd2
  have hlt1 : (sortAttrs l1).Pairwise (fun a b => a.1 < b.1) :=
    (hs1.and hne1).imp (fun h => lt_of_le_of_ne h.1 h.2)
  have hlt2 : (sortAttrs l2).Pairwise (fun a b => a.1 < b.1) :=
    (hs2.and hne2).imp (fun h => lt_of_le_of_ne h.1 h.2)
  exact List.eq_of_perm_of_sorted hps hlt1 hlt2

theorem encAttrs_eq_of_equiv {a1 a2 : Option (List (String × JVal))}
    (h : attrsEquiv a1 a2) : encAttrs a1 = encAttrs a2 := by
  match a1, a2, h with
  | none, none, _ => rfl
  | some l1, some l2, h =>
      obtain ⟨hp, hnd⟩ := h
      simp only [encAttrs, sortAttrs_eq_of_perm hp hnd]

end Normalize

/-- C5: `content_hash` is a pure function of exactly
`(source_path, event_time, level, message, attrs)`: two NormalizedEvents
agreeing on those five fields — with `attrs` equal as a key→value mapping,
insertion order free — hash identically, whatever their other fields
(`source_type`, `line_number`, `raw_excerpt`) are. -/
theorem C5_content_hash_pure_function (e1 e2 : Normalize.NormalizedEvent)
    (hsp : e1.source_path = e2.source_path)
    (het : e1.event_time = e2.event_time)
    (hlv : e1.level = e2.level)
    (hmsg : e1.message = e2.message)
    (hat : Normalize.attrsEquiv e1.attrs e2.attrs) :
    Normalize.content_hash e1 = Normalize.content_hash e2 := by
  have hkey : Normalize.keyJson e1 = Normalize.keyJson e2 := by
    simp only [Normalize.keyJson, hsp, het, hlv, hmsg,
      Normalize.encAttrs_eq_of_equiv hat]
  simp only [Normalize.content_hash, hkey]

/-- C5 witness: two concrete events with the same five semantic fields,
`attrs` in two different insertion orders, and different `source_type`,
`line_number`, `raw_excerpt`, hash identically. -/
theorem C5_content_hash_pure_function_witness :
    Normalize.content_hash
      { source_path := some "a.log", source_type := some "jsonl",
        line_number := some 1, event_time := some "2024-01-01T00:00:00Z",
        level := some "INFO", message := some "hello",
        attrs := some [("user", .jstr "bob"), ("ip", .jstr "10.0.0.1")],
        raw_excerpt := some "raw1" }
    = Normalize.content_hash
      { source_path := some "a.log", source_type := some "syslog",
        line_number := some 42, event_time := some "2024-01-01T00:00:00Z",
        level := some "INFO", message := some "hello",
        attrs := some [("ip", .jstr "10.0.0.1"), ("user", .jstr "bob")],
        raw_excerpt := some "raw2" } :=
  C5_content_hash_pure_function _ _ rfl rfl rfl rfl
    (by constructor
        · decide
        · decide)

/-- C10: with the on-disk store size (WAL/shadow files included) at or
below the high watermark, `enforce_quota` returns `(True, 0)` and performs
no write at all: the table is returned unchanged and no alert is emitted. -/
theorem C10_enforce_quota_under_high_noop (sz : List Quota.EvRow → Nat)
    (high low retentionMinDays : Nat) (now : Int) (rows : List Quota.EvRow)
    (h : sz rows ≤ high) :
    Quota.enforce_quota sz high low retentionMinDays now rows
      = { rows := rows, ok := true, freed := 0, alerts := [] } := by
  simp [Quota.enforce_quota, h]

/-- C10 witness: a concrete two-row store of size 100 under a high
watermark of 200 is left untouched with `(True, 0)`. -/
theorem C10_enforce_quota_under_high_noop_witness :
    Quota.enforce_quota (fun l => l.length * 50) 200 100 7 1000000
        [{ id := 1, eventTime := some 0 }, { id := 2, eventTime := none }]
      = { rows := [{ id := 1, eventTime := some 0 }, { id := 2, eventTime := none }],
          ok := true, freed := 0, alerts := [] } :=
  C10_enforce_quota_under_high_noop _ _ _ _ _ _ (by decide)

namespace ApiQuota

theorem removeUpTo_length_le (n : Nat) (p : LogRow → Bool) (l : List LogRow) :
    (removeUpTo n p l).length ≤ l.length := by
  induction l generalizing n with
  | nil => cases n <;> simp [removeUpTo]
  | cons r rs ih =>
      cases n with
      | zero => simp [removeUpTo]
      | succ m =>
          by_cases hp : p r
          · simpa [removeUpTo, hp] using Nat.le_succ_of_le (ih m)
          · simpa [removeUpTo, hp] using ih (m + 1)

theorem removeUpTo_eq_self (n : Nat) (p : LogRow → Bool) (l : List LogRow)
    (h : ∀ r ∈ l, p r = false) : removeUpTo n p l = l := by
  induction l generalizing n with
  | nil => cases n <;> simp [removeUpTo]
  | cons r rs ih =>
      cases n with
      | zero => simp [removeUpTo]
      | succ m =>
          have hr : p r = false := h r (by simp)
          simp [removeUpTo, hr, ih (m + 1) (fun x hx => h x (by simp [hx]))]

theorem removeUpTo_mem_preserve (n : Nat) (p : LogRow → Bool) (l : List LogRow)
    (r : LogRow) (hr : r ∈ l) (hp : p r = false) : r ∈ removeUpTo n p l := by
  induction l generalizing n with
  | nil => cases n <;> simp [removeUpTo] at hr
  | cons x xs ih =>
      cases n with
      | zero => simpa [removeUpTo] using hr
      | succ m =>
          rcases List.mem_cons.mp hr with hrx | hrs
          · subst hrx
            simp [removeUpTo, hp]
          · by_cases hx : p x
            · simpa [removeUpTo, hx] using ih m hrs
            · simp [removeUpTo, hx, ih (m + 1) hrs]

/-- Postcondition of the pruning loop: either it finished with no alert,
in which case the final size is at or below the high watermark and the
returned boolean says whether it is at or below the low watermark; or it
gave up with a `STORAGE_HIGH` alert, returning `False` while still above
the high watermark. -/
theorem enforce_quota_loop_spec (sz : List LogRow → Nat) (high low : Nat)
    (cutoff : Int) (batch : Nat) (rows : List LogRow) :
    ((enforce_quota_loop sz high low cutoff batch rows).alerts = []
      ∧ sz (enforce_quota_loop sz high low cutoff batch rows).rows ≤ high
      ∧ (enforce_quota_loop sz high low cutoff batch rows).ok
          = decide (sz (enforce_quota_loop sz high low cutoff batch rows).rows ≤ low))
    ∨ ((enforce_quota_loop sz high low cutoff batch rows).alerts = [storageHighAlert]
      ∧ (enforce_quota_loop sz high low cutoff batch rows).ok = false
      ∧ ¬ sz (enforce_quota_loop sz high low cutoff batch rows).rows ≤ high) := by
  induction rows using enforce_quota_loop.induct sz high low cutoff batch with
  | case1 rows h =>
      left
      rw [enforce_quota_loop]
      simp [h]
  | case2 rows h h2 =>
      right
      rw [enforce_quota_loop]
      simp [h, h2]
  | case3 rows h h2 ih =>
      rw [enforce_quota_loop]
      simpa [h, h2] using ih

/-- Rows whose coalesced time is within retention survive every pass of
the pruning loop. -/
theorem enforce_quota_loop_preserves_young (sz : List LogRow → Nat)
    (high low : Nat) (cutoff : Int) (batch : Nat) (rows : List LogRow)
    (r : LogRow) (hy : ¬ (coalTime r < cutoff)) (hr : r ∈ rows) :
    r ∈ (enforce_quota_loop sz high low cutoff batch rows).rows := by
  have hpf : (fun x => decide (coalTime x < cutoff)) r = false := by
    simpa using hy
  induction rows using enforce_quota_loop.induct sz high low cutoff batch with
  | case1 rows h =>
      rw [enforce_quota_loop]
      simpa [h] using hr
  | case2 rows h h2 =>
      rw [enforce_quota_loop]
      simpa [h, h2] using hr
  | case3 rows h h2 ih =>
      rw [enforce_quota_loop]
      simp only [h, h2, if_neg, if_false]
      exact ih (removeUpTo_mem_preserve _ _ _ _ hr hpf)

/-- The give-up branch: above the high watermark with nothing prunable,
the loop deletes nothing, emits `STORAGE_HIGH`, and returns `False`. -/
theorem enforce_quota_loop_gives_up (sz : List LogRow → Nat) (high low : Nat)
    (cutoff : Int) (batch : Nat) (rows : List LogRow)
    (hhigh : ¬ sz rows ≤ high)
    (hnone : ∀ r ∈ rows, ¬ (coalTime r < cutoff)) :
    enforce_quota_loop sz high low cutoff batch rows
      = { rows := rows, ok := false, alerts := [storageHighAlert] } := by
  have heq : removeUpTo batch (fun r => decide (coalTime r < cutoff)) rows = rows :=
    removeUpTo_eq_self _ _ _ (fun r hr => by simpa using hnone r hr)
  rw [enforce_quota_loop]
  simp [hhigh, heq]

end ApiQuota

namespace Quota

/-- Rows the single-shot pass deletes are retention-expired and belong to
the 50000-row candidate batch. -/
theorem enforce_quota_deleted_prunable (sz : List EvRow → Nat)
    (high low retentionMinDays : Nat) (now : Int) (rows : List EvRow)
    (r : EvRow) (hr : r ∈ rows)
    (hdel : r ∉ (enforce_quota sz high low retentionMinDays now rows).rows) :
    prunable (now - (retentionMinDays : Int) * 86400) r = true
      ∧ r.id ∈ candidateIds rows := by
  by_cases h : sz rows ≤ high
  · exfalso
    apply hdel
    simpa [enforce_quota, h] using hr
  · have hmem : r ∉ rows.filter
        (fun x => !(deletePred (now - (retentionMinDays : Int) * 86400)
          (candidateIds rows) x)) := by
      intro hc
      apply hdel
      by_cases hlow : sz (rows.filter
          (fun x => !(deletePred (now - (retentionMinDays : Int) * 86400)
            (candidateIds rows) x))) > low
      · simpa [enforce_quota, h, hlow] using hc
      · simpa [enforce_quota, h, hlow] using hc
    have hnk : ¬ ((!(deletePred (now - (retentionMinDays : Int) * 86400)
        (candidateIds rows) r)) = true) :=
      fun hb => hmem (List.mem_filter.mpr ⟨hr, hb⟩)
    have hd : deletePred (now - (retentionMinDays : Int) * 86400)
        (candidateIds rows) r = true := by
      revert hnk
      cases deletePred (now - (retentionMinDays : Int) * 86400) (candidateIds rows) r <;>
        simp
    simp only [deletePred, Bool.and_eq_true] at hd
    exact ⟨hd.1, by simpa using hd.2⟩

/-- Rows within retention (NULL event time included) survive the
single-shot pass. -/
theorem enforce_quota_preserves_young (sz : List EvRow → Nat)
    (high low retentionMinDays : Nat) (now : Int) (rows : List EvRow)
    (r : EvRow) (hr : r ∈ rows)
    (hy : prunable (now - (retentionMinDays : Int) * 86400) r = false) :
    r ∈ (enforce_quota sz high low retentionMinDays now rows).rows := by
  by_cases hdel : r ∈ (enforce_quota sz high low retentionMinDays now rows).rows
  · exact hdel
  · exact absurd (enforce_quota_deleted_prunable sz high low retentionMinDays
      now rows r hr hdel).1 (by simp [hy])

end Quota

/-- Behavior of the single-shot pass above the high watermark: one filter
deletion, `ok` reports the low watermark, `freed` is the size delta, and
no alert is ever emitted. -/
theorem Quota.enforce_quota_over_high (sz : List Quota.EvRow → Nat)
    (high low retentionMinDays : Nat) (now : Int) (rows : List Quota.EvRow)
    (hhigh : ¬ sz rows ≤ high) :
    (Quota.enforce_quota sz high low retentionMinDays now rows).rows
      = rows.filter (fun x => !(Quota.deletePred
          (now - (retentionMinDays : Int) * 86400) (Quota.candidateIds rows) x))
    ∧ (Quota.enforce_quota sz high low retentionMinDays now rows).ok
      = decide (sz (Quota.enforce_quota sz high low retentionMinDays now rows).rows ≤ low)
    ∧ (Quota.enforce_quota sz high low retentionMinDays now rows).freed
      = (sz rows : Int)
        - (sz (Quota.enforce_quota sz high low retentionMinDays now rows).rows : Int)
    ∧ (Quota.enforce_quota sz high low retentionMinDays now rows).alerts = [] := by
  by_cases hlow : sz (rows.filter (fun x => !(Quota.deletePred
      (now - (retentionMinDays : Int) * 86400) (Quota.candidateIds rows) x))) > low
  · simp [Quota.enforce_quota, hhigh, hlow]
    try omega
  · simp [Quota.enforce_quota, hhigh, hlow]
    try omega

/-- C8 counterexample: the single-shot `enforce_quota` of
`storage/quota.py`, called on a store of fixed on-disk size 200 bytes with
high watermark 100, low watermark 50, and a single row whose event time
(0) is within the 7-day retention window ending at `now = 0` — so nothing
is prunable — returns not-under-control but emits NO alert at all,
contradicting the claim that a `STORAGE_HIGH` alert is emitted. -/
theorem C8_counterexample_no_alert :
    ¬ ((fun (_ : List Quota.EvRow) => 200) [{ id := 1, eventTime := some 0 }] ≤ 100)
    ∧ (∀ r ∈ [({ id := 1, eventTime := some 0 } : Quota.EvRow)],
        Quota.prunable ((0 : Int) - (7 : Int) * 86400) r = false)
    ∧ (Quota.enforce_quota (fun _ => 200) 100 50 7 0
        [{ id := 1, eventTime := some 0 }]).ok = false
    ∧ (Quota.enforce_quota (fun _ => 200) 100 50 7 0
        [{ id := 1, eventTime := some 0 }]).alerts = [] := by
  refine ⟨by decide, by decide, ?_, ?_⟩ <;> decide

/-- C8 amended: when the store is above the high watermark and no
retention-expired row remains, the loop-based enforcement
(`api/utils/quota.py`) stops deleting, emits `STORAGE_HIGH`, and returns
`False`; the single-shot enforcement (`storage/quota.py`) in the same
situation deletes nothing and returns `(False, 0)` — not-under-control —
but emits no alert. Neither path raises (both are total functions of the
state). -/
theorem C8_amended_gives_up_behavior (szA : List ApiQuota.LogRow → Nat)
    (szB : List Quota.EvRow → Nat) (high low : Nat) (cutoff : Int)
    (batch : Nat) (retentionMinDays : Nat) (now : Int)
    (lrows : List ApiQuota.LogRow) (qrows : List Quota.EvRow) :
    (¬ szA lrows ≤ high → (∀ r ∈ lrows, ¬ (ApiQuota.coalTime r < cutoff)) →
      ApiQuota.enforce_quota_loop szA high low cutoff batch lrows
        = { rows := lrows, ok := false, alerts := [ApiQuota.storageHighAlert] })
    ∧ (low ≤ high → ¬ szB qrows ≤ high →
      (∀ r ∈ qrows,
        Quota.prunable (now - (retentionMinDays : Int) * 86400) r = false) →
      Quota.enforce_quota szB high low retentionMinDays now qrows
        = { rows := qrows, ok := false, freed := 0, alerts := [] }) := by
  constructor
  · intro hhigh hnone
    exact ApiQuota.enforce_quota_loop_gives_up szA high low cutoff batch lrows hhigh hnone
  · intro hlh hhigh hnone
    have hfe : qrows.filter (fun x => !(Quota.deletePred
        (now - (retentionMinDays : Int) * 86400) (Quota.candidateIds qrows) x))
        = qrows :=
      List.filter_eq_self.mpr (fun a ha => by simp [Quota.deletePred, hnone a ha])
    have hlow : low < szB qrows := by omega
    simp [Quota.enforce_quota, hhigh, hfe, hlow]

/-- C8 amended witness: both give-up behaviors at concrete inputs. -/
theorem C8_amended_gives_up_behavior_witness :
    (ApiQuota.enforce_quota_loop (fun _ => 300) 100 50 0 50000
        [{ id := 1, timestamp := some 5, ingestTime := 5 }]
      = { rows := [{ id := 1, timestamp := some 5, ingestTime := 5 }],
          ok := false, alerts := [ApiQuota.storageHighAlert] })
    ∧ (Quota.enforce_quota (fun _ => 300) 100 50 7 0
        [{ id := 1, eventTime := some 0 }]
      = { rows := [{ id := 1, eventTime := some 0 }],
          ok := false, freed := 0, alerts := [] }) :=
  ⟨(C8_amended_gives_up_behavior (fun _ => 300) (fun _ => 300) 100 50 0 50000 7 0
      [{ id := 1, timestamp := some 5, ingestTime := 5 }]
      [{ id := 1, eventTime := some 0 }]).1 (by decide) (by decide),
   (C8_amended_gives_up_behavior (fun _ => 300) (fun _ => 300) 100 50 0 50000 7 0
      [{ id := 1, timestamp := some 5, ingestTime := 5 }]
      [{ id := 1, eventTime := some 0 }]).2 (by decide) (by decide) (by decide)⟩

/-- C3 counterexample: `SQLiteBackend._prune_oldest_rows` is a pruning
path against the durable store with no retention check at all. With the
database reported at 200 MB against a 100 MB target, it deletes a row
whose ingestion time equals the current instant (`now = 1000`), i.e. a row
of age 0 — far inside any positive retention window (0 < 7 days), which
the claim says can never be deleted. -/
theorem C3_counterexample_backend_prunes_young :
    Backend.prune_oldest_rows (fun l => (l.length : ℚ) * 200) 100
        [{ id := 1, ingestTime := 1000 }] = []
    ∧ ((1000 : Int) - 1000 < 7 * 86400) := by
  constructor
  · rw [Backend.prune_oldest_rows]
    norm_num [Backend.removeOldestChunk]
    rw [Backend.prune_oldest_rows]
    norm_num
  · decide

/-- C3 amended: the two quota-enforcement paths do respect the retention
floor — `storage/quota.py` deletes only rows with a non-NULL event time
older than the cutoff, and `api/utils/quota.py` deletes only rows whose
event time (falling back to ingestion time) is older than the cutoff — but
`SQLiteBackend._prune_oldest_rows` prunes purely by size and id order with
no retention check (see the counterexample). -/
theorem C3_amended_quota_paths_respect_retention
    (szA : List ApiQuota.LogRow → Nat) (szB : List Quota.EvRow → Nat)
    (high low : Nat) (cutoff : Int) (batch : Nat)
    (retentionMinDays : Nat) (now : Int)
    (lrows : List ApiQuota.LogRow) (qrows : List Quota.EvRow) :
    (∀ r ∈ qrows,
      Quota.prunable (now - (retentionMinDays : Int) * 86400) r = false →
      r ∈ (Quota.enforce_quota szB high low retentionMinDays now qrows).rows)
    ∧ (∀ r ∈ lrows, ¬ (ApiQuota.coalTime r < cutoff) →
      r ∈ (ApiQuota.enforce_quota_loop szA high low cutoff batch lrows).rows) := by
  constructor
  · intro r hr hy
    exact Quota.enforce_quota_preserves_young szB high low retentionMinDays now qrows r hr hy
  · intro r hr hy
    exact ApiQuota.enforce_quota_loop_preserves_young szA high low cutoff batch lrows r hy hr

/-- C3 amended witness: a within-retention row survives both enforcement
paths at concrete inputs (store far above the high watermark). -/
theorem C3_amended_quota_paths_respect_retention_witness :
    ({ id := 1, eventTime := some 10 } : Quota.EvRow)
      ∈ (Quota.enforce_quota (fun _ => 900) 100 50 7 0
          [{ id := 1, eventTime := some 10 }]).rows
    ∧ ({ id := 2, timestamp := none, ingestTime := 3 } : ApiQuota.LogRow)
      ∈ (ApiQuota.enforce_quota_loop (fun l => l.length * 900) 100 50 0 50000
          [{ id := 2, timestamp := none, ingestTime := 3 }]).rows :=
  ⟨(C3_amended_quota_paths_respect_retention (fun l => l.length * 900) (fun _ => 900)
      100 50 0 50000 7 0
      [{ id := 2, timestamp := none, ingestTime := 3 }]
      [{ id := 1, eventTime := some 10 }]).1
      { id := 1, eventTime := some 10 } (by decide) (by decide),
   (C3_amended_quota_paths_respect_retention (fun l => l.length * 900) (fun _ => 900)
      100 50 0 50000 7 0
      [{ id := 2, timestamp := none, ingestTime := 3 }]
      [{ id := 1, eventTime := some 10 }]).2
      { id := 2, timestamp := none, ingestTime := 3 } (by decide) (by decide)⟩

/-- C4 counterexample: with high watermark 15, low watermark 5, batch 1
(`PRUNE_DELETE_BATCH` is environment-configurable), and two
retention-expired rows of 10 bytes each, the loop stops as soon as the
size (10) is at or below the HIGH watermark: it returns with a
retention-expired row still present and the size still above the LOW
watermark — the claim's "repeatedly deletes … until the size drops to or
below the low watermark or no row older than the minimum retention period
remains" is false on the code. -/
theorem C4_counterexample_loop_stops_at_high :
    ApiQuota.enforce_quota_loop (fun l => l.length * 10) 15 5 0 1
        [{ id := 1, timestamp := some (-5), ingestTime := 0 },
         { id := 2, timestamp := some (-5), ingestTime := 0 }]
      = { rows := [{ id := 2, timestamp := some (-5), ingestTime := 0 }],
          ok := false, alerts := [] }
    ∧ (ApiQuota.coalTime { id := 2, timestamp := some (-5), ingestTime := 0 } < 0)
    ∧ ¬ ((fun (l : List ApiQuota.LogRow) => l.length * 10)
          [{ id := 2, timestamp := some (-5), ingestTime := 0 }] ≤ 5) := by
  refine ⟨?_, by decide, by decide⟩
  rw [ApiQuota.enforce_quota_loop]
  norm_num [ApiQuota.removeUpTo, ApiQuota.coalTime]
  rw [ApiQuota.enforce_quota_loop]
  norm_num

/-- C4 amended: above the high watermark, (i) the loop-based enforcement
repeatedly deletes bounded batches of retention-expired rows (event time
falling back to ingestion time) until the size is at or below the HIGH
watermark — its returned boolean reports the LOW watermark, and it carries
no byte count — or gives up with `STORAGE_HIGH` when a pass deletes
nothing; (ii) the single-shot enforcement deletes exactly one bounded
batch — only retention-expired rows among the 50000 first in NULLs-first
`(event_time, id)` order — and returns whether the resulting size is at or
below the LOW watermark together with the bytes freed. -/
theorem C4_amended_pruning_behavior (szA : List ApiQuota.LogRow → Nat)
    (szB : List Quota.EvRow → Nat) (high low : Nat) (cutoff : Int)
    (batch : Nat) (retentionMinDays : Nat) (now : Int)
    (lrows : List ApiQuota.LogRow) (qrows : List Quota.EvRow) :
    (((ApiQuota.enforce_quota_loop szA high low cutoff batch lrows).alerts = []
        ∧ szA (ApiQuota.enforce_quota_loop szA high low cutoff batch lrows).rows ≤ high
        ∧ (ApiQuota.enforce_quota_loop szA high low cutoff batch lrows).ok
            = decide (szA (ApiQuota.enforce_quota_loop szA high low cutoff batch lrows).rows ≤ low))
      ∨ ((ApiQuota.enforce_quota_loop szA high low cutoff batch lrows).alerts
            = [ApiQuota.storageHighAlert]
        ∧ (ApiQuota.enforce_quota_loop szA high low cutoff batch lrows).ok = false
        ∧ ¬ szA (ApiQuota.enforce_quota_loop szA high low cutoff batch lrows).rows ≤ high))
    ∧ (¬ szB qrows ≤ high →
      (∀ r ∈ qrows,
          r ∉ (Quota.enforce_quota szB high low retentionMinDays now qrows).rows →
          Quota.prunable (now - (retentionMinDays : Int) * 86400) r = true
            ∧ r.id ∈ Quota.candidateIds qrows)
        ∧ (Quota.enforce_quota szB high low retentionMinDays now qrows).ok
            = decide (szB (Quota.enforce_quota szB high low retentionMinDays now qrows).rows ≤ low)
        ∧ (Quota.enforce_quota szB high low retentionMinDays now qrows).freed
            = (szB qrows : Int)
              - (szB (Quota.enforce_quota szB high low retentionMinDays now qrows).rows : Int)) := by
  constructor
  · exact ApiQuota.enforce_quota_loop_spec szA high low cutoff batch lrows
  · intro hhigh
    refine ⟨fun r hr hd =>
      Quota.enforce_quota_deleted_prunable szB high low retentionMinDays now qrows r hr hd,
      ?_, ?_⟩
    · exact (Quota.enforce_quota_over_high szB high low retentionMinDays now qrows hhigh).2.1
    · exact (Quota.enforce_quota_over_high szB high low retentionMinDays now qrows hhigh).2.2.1

/-- C4 amended witness: concrete instantiation — the loop-path disjunction
holds, and above the high watermark the single-shot pass reports the low
watermark and the size delta. -/
theorem C4_amended_pruning_behavior_witness :
    (((ApiQuota.enforce_quota_loop (fun l => l.length * 10) 15 5 0 1
          [{ id := 1, timestamp := some (-5), ingestTime := 0 }]).alerts = []
        ∧ (fun (l : List ApiQuota.LogRow) => l.length * 10)
            (ApiQuota.enforce_quota_loop (fun l => l.length * 10) 15 5 0 1
              [{ id := 1, timestamp := some (-5), ingestTime := 0 }]).rows ≤ 15
        ∧ (ApiQuota.enforce_quota_loop (fun l => l.length * 10) 15 5 0 1
              [{ id := 1, timestamp := some (-5), ingestTime := 0 }]).ok
            = decide ((fun (l : List ApiQuota.LogRow) => l.length * 10)
                (ApiQuota.enforce_quota_loop (fun l => l.length * 10) 15 5 0 1
                  [{ id := 1, timestamp := some (-5), ingestTime := 0 }]).rows ≤ 5))
      ∨ ((ApiQuota.enforce_quota_loop (fun l => l.length * 10) 15 5 0 1
            [{ id := 1, timestamp := some (-5), ingestTime := 0 }]).alerts
              = [ApiQuota.storageHighAlert]
        ∧ (ApiQuota.enforce_quota_loop (fun l => l.length * 10) 15 5 0 1
            [{ id := 1, timestamp := some (-5), ingestTime := 0 }]).ok = false
        ∧ ¬ (fun (l : List ApiQuota.LogRow) => l.length * 10)
            (ApiQuota.enforce_quota_loop (fun l => l.length * 10) 15 5 0 1
              [{ id := 1, timestamp := some (-5), ingestTime := 0 }]).rows ≤ 15))
    ∧ (Quota.enforce_quota (fun l => l.length * 200) 100 50 7 0
          [{ id := 1, eventTime := some (-999999999) }]).ok
        = decide ((fun (l : List Quota.EvRow) => l.length * 200)
            (Quota.enforce_quota (fun l => l.length * 200) 100 50 7 0
              [{ id := 1, eventTime := some (-999999999) }]).rows ≤ 50) :=
  ⟨(C4_amended_pruning_behavior (fun l => l.length * 10) (fun l => l.length * 200)
      15 5 0 1 7 0
      [{ id := 1, timestamp := some (-5), ingestTime := 0 }]
      [{ id := 1, eventTime := some (-999999999) }]).1,
   ((C4_amended_pruning_behavior (fun l => l.length * 10) (fun l => l.length * 200)
      100 50 0 1 7 0
      [{ id := 1, timestamp := some (-5), ingestTime := 0 }]
      [{ id := 1, eventTime := some (-999999999) }]).2 (by decide)).2.1⟩


namespace Parsers

theorem firstArgmax_mem {α : Type} (score : α → ℚ) (l : List α) (m : α)
    (h : firstArgmax score l = some m) : m ∈ l := by
  induction l generalizing m with
  | nil => simp [firstArgmax] at h
  | cons x xs ih =>
      rw [firstArgmax] at h
      cases hf : firstArgmax score xs with
      | none =>
          rw [hf] at h
          simp at h
          simp [h]
      | some m' =>
          rw [hf] at h
          simp only [] at h
          split at h
          · simp at h
            subst h
            exact List.mem_cons_of_mem _ (ih _ hf)
          · simp at h
            subst h
            exact List.mem_cons_self _ _

theorem firstArgmax_le {α : Type} (score : α → ℚ) (l : List α) (m : α)
    (h : firstArgmax score l = some m) : ∀ p ∈ l, score p ≤ score m := by
  induction l generalizing m with
  | nil => simp [firstArgmax] at h
  | cons x xs ih =>
      rw [firstArgmax] at h
      cases hf : firstArgmax score xs with
      | none =>
          rw [hf] at h
          simp at h
          subst h
          intro p hp
          rcases List.mem_cons.mp hp with hpx | hpxs
          · subst hpx
            exact le_refl _
          · exfalso
            cases hxs : xs with
            | nil => simp [hxs] at hpxs
            | cons y ys =>
                rw [hxs, firstArgmax] at hf
                cases h2 : firstArgmax score ys <;> rw [h2] at hf <;>
                  simp only [] at hf
                · simp at hf
                · split at hf <;> simp at hf
      | some m' =>
          rw [hf] at h
          simp only [] at h
          split at h
          · rename_i hlt
            simp at h
            subst h
            intro p hp
            rcases List.mem_cons.mp hp with hpx | hpxs
            · subst hpx
              exact le_of_lt hlt
            · exact ih _ hf p hpxs
          · rename_i hlt
            simp at h
            subst h
            intro p hp
            rcases List.mem_cons.mp hp with hpx | hpxs
            · subst hpx
              exact le_refl _
            · exact le_trans (ih _ hf p hpxs) (not_lt.mp hlt)

theorem firstArgmax_first {α : Type} (score : α → ℚ) (l : List α) (m : α)
    (h : firstArgmax score l = some m) :
    ∃ l1 l2, l = l1 ++ m :: l2 ∧ ∀ p ∈ l1, score p < score m := by
  induction l generalizing m with
  | nil => simp [firstArgmax] at h
  | cons x xs ih =>
      rw [firstArgmax] at h
      cases hf : firstArgmax score xs with
      | none =>
          rw [hf] at h
          simp at h
          subst h
          exact ⟨[], xs, rfl, by simp⟩
      | some m' =>
          rw [hf] at h
          simp only [] at h
          split at h
          · rename_i hlt
            simp at h
            subst h
            obtain ⟨l1, l2, heq, hall⟩ := ih _ hf
            refine ⟨x :: l1, l2, by simp [heq], ?_⟩
            intro p hp
            rcases List.mem_cons.mp hp with hpx | hp1
            · subst hpx
              exact hlt
            · exact hall p hp1
          · simp at h
            subst h
            exact ⟨[], xs, rfl, by simp⟩

theorem firstArgmax_of_ne_nil {α : Type} (score : α → ℚ) (l : List α)
    (h : l ≠ []) : ∃ m, firstArgmax score l = some m := by
  cases l with
  | nil => exact absurd rfl h
  | cons x xs =>
      rw [firstArgmax]
      cases firstArgmax score xs with
      | none => exact ⟨x, rfl⟩
      | some m' =>
          simp only []
          by_cases hlt : score x < score m'
          · exact ⟨m', by rw [if_pos hlt]⟩
          · exact ⟨x, by rw [if_neg hlt]⟩

theorem head_insertionSort_eq_firstArgmax {α : Type} (score : α → ℚ) (l : List α) :
    (List.insertionSort (fun a b => score b ≤ score a) l).head? = firstArgmax score l := by
  induction l with
  | nil => rfl
  | cons x xs ih =>
      simp only [List.insertionSort]
      rw [firstArgmax]
      cases hs : List.insertionSort (fun a b => score b ≤ score a) xs with
      | nil =>
          rw [hs] at ih
          rw [← ih]
          simp [List.orderedInsert]
      | cons y ys =>
          rw [hs] at ih
          rw [← ih]
          simp only [List.head?]
          by_cases hr : score y ≤ score x
          · rw [List.orderedInsert, if_pos hr]
            simp [not_lt.mpr hr]
          · rw [List.orderedInsert, if_neg hr]
            simp [lt_of_not_le hr]

end Parsers

namespace Sniffer

theorem sniffLoop_cons (sample fname : String) (e : RegEntry) (es : List RegEntry)
    (acc : Option RegEntry × ℚ) :
    sniffLoop sample fname (e :: es) acc
      = sniffLoop sample fname es (loopStep sample fname acc e) := rfl

/-- Invariant of the scoring loop: starting from incumbent `(b, s)`, the
loop returns the first-registered maximal sniffable handler when its score
beats `s`, and the incumbent otherwise. -/
theorem sniffLoop_spec (sample fname : String) (reg : List RegEntry) :
    ∀ (b : Option RegEntry) (s : ℚ),
    sniffLoop sample fname reg (b, s)
      = match Parsers.firstArgmax (scoreOf sample fname) (withSniff reg) with
        | none => (b, s)
        | some m =>
            if s < scoreOf sample fname m
            then (some m, scoreOf sample fname m) else (b, s) := by
  induction reg with
  | nil => intro b s; rfl
  | cons e es ih =>
      intro b s
      rw [sniffLoop_cons]
      cases hf : e.sniffFn with
      | none =>
          have hw : withSniff (e :: es) = withSniff es := by
            simp [withSniff, List.filter_cons, hf]
          have hstep : loopStep sample fname (b, s) e = (b, s) := by
            simp [loopStep, hf]
          rw [hstep, hw]
          exact ih b s
      | some f =>
          have hw : withSniff (e :: es) = e :: withSniff es := by
            simp [withSniff, List.filter_cons, hf]
          have hsc : scoreOf sample fname e = f sample fname := by
            simp [scoreOf, hf]
          rw [hw, Parsers.firstArgmax]
          cases hm : Parsers.firstArgmax (scoreOf sample fname) (withSniff es) with
          | none =>
              simp only []
              by_cases hlt : s < f sample fname
              · have hstep : loopStep sample fname (b, s) e
                    = (some e, f sample fname) := by
                  simp [loopStep, hf, hlt]
                rw [hstep, ih, hm]
                simp [hsc, hlt]
              · have hstep : loopStep sample fname (b, s) e = (b, s) := by
                  simp [loopStep, hf, hlt]
                rw [hstep, ih, hm]
                simp [hsc, hlt]
          | some m =>
              simp only []
              by_cases hlt : s < f sample fname
              · have hstep : loopStep sample fname (b, s) e
                    = (some e, f sample fname) := by
                  simp [loopStep, hf, hlt]
                rw [hstep, ih, hm]
                by_cases h2 : scoreOf sample fname e < scoreOf sample fname m
                · rw [if_pos h2]
                  rw [hsc] at h2
                  have h3 : s < scoreOf sample fname m := lt_trans hlt h2
                  simp [h2, h3]
                · rw [if_neg h2]
                  rw [hsc] at h2
                  simp [hsc, hlt, not_lt.mp h2, h2]
              · have hstep : loopStep sample fname (b, s) e = (b, s) := by
                  simp [loopStep, hf, hlt]
                rw [hstep, ih, hm]
                by_cases h2 : scoreOf sample fname e < scoreOf sample fname m
                · rw [if_pos h2]
                · rw [if_neg h2]
                  rw [hsc] at h2
                  have h3 : ¬ s < scoreOf sample fname m :=
                    fun hc => hlt (lt_of_lt_of_le hc (not_lt.mp h2))
                  simp [hsc, hlt, h3]
  
end Sniffer

/-- C6: sniffing is a deterministic pure function, and selection follows
"highest confidence wins, ties broken by registration order": (i) whenever
some sniffing handler scores above the 0.0 starting incumbent, `sniff_file`
selects exactly `firstArgmax` — the first-registered handler among those
with the maximal score — which is maximal over the registry; (ii)
`chooseParser` equals `firstArgmax` over the parser registry
unconditionally; (iii) repeated sniffs of the same sample against the same
registry return the same result. (When every handler scores 0 the raw
fallback of C7 applies instead of a selection.) -/
theorem C6_sniff_selects_first_maximal (reg : List Sniffer.RegEntry)
    (fileLines : List String) (fname : String)
    (preg : List Parsers.PEntry) (sample2 fname2 : String) :
    ((∃ e ∈ Sniffer.withSniff reg,
        0 < Sniffer.scoreOf (Sniffer.sampleText fileLines) fname e) →
      ∃ m, Parsers.firstArgmax (Sniffer.scoreOf (Sniffer.sampleText fileLines) fname)
              (Sniffer.withSniff reg) = some m
        ∧ Sniffer.sniff_file false reg fileLines fname = .handler m.name
        ∧ m ∈ Sniffer.withSniff reg
        ∧ ∀ e ∈ Sniffer.withSniff reg,
            Sniffer.scoreOf (Sniffer.sampleText fileLines) fname e
              ≤ Sniffer.scoreOf (Sniffer.sampleText fileLines) fname m)
    ∧ Parsers.chooseParser preg sample2 fname2
        = Parsers.firstArgmax (fun p => p.sniff sample2 fname2) preg
    ∧ (∀ m, Parsers.firstArgmax (fun p => p.sniff sample2 fname2) preg = some m →
        ∃ l1 l2, preg = l1 ++ m :: l2 ∧ ∀ p ∈ l1, p.sniff sample2 fname2 < m.sniff sample2 fname2)
    ∧ Sniffer.sniff_file false reg fileLines fname
        = Sniffer.sniff_file false reg fileLines fname
    ∧ Parsers.chooseParser preg sample2 fname2
        = Parsers.chooseParser preg sample2 fname2 := by
  refine ⟨?_, ?_, ?_, rfl, rfl⟩
  · rintro ⟨e, he, hpos⟩
    have hne : Sniffer.withSniff reg ≠ [] := by
      intro h0
      rw [h0] at he
      simp at he
    obtain ⟨m, hm⟩ := Parsers.firstArgmax_of_ne_nil
      (Sniffer.scoreOf (Sniffer.sampleText fileLines) fname) _ hne
    have hmax := Parsers.firstArgmax_le _ _ _ hm
    have hposm : 0 < Sniffer.scoreOf (Sniffer.sampleText fileLines) fname m :=
      lt_of_lt_of_le hpos (hmax e he)
    refine ⟨m, hm, ?_, Parsers.firstArgmax_mem _ _ _ hm, hmax⟩
    have hred : Sniffer.sniff_file false reg fileLines fname
        = match Sniffer.sniffLoop (Sniffer.sampleText fileLines) fname reg (none, 0) with
          | (some e, _) => Sniffer.SniffResult.handler e.name
          | (none, _) =>
              if Sniffer.sampleText fileLines ≠ "" then .rawHandler else .noMatch := rfl
    rw [hred, Sniffer.sniffLoop_spec, hm]
    simp [hposm]
  · exact Parsers.head_insertionSort_eq_firstArgmax
      (fun p => p.sniff sample2 fname2) preg
  · intro m hm
    exact Parsers.firstArgmax_first _ _ _ hm

/-- C6 witness: a registry where a sniff-capable handler scores 1/2
(beating the registration-order-later entries and the sniffless raw
handler); the theorem yields the selected handler with its maximality. -/
theorem C6_sniff_selects_first_maximal_witness :
    ∃ m, Parsers.firstArgmax
          (Sniffer.scoreOf (Sniffer.sampleText ["x"]) "a.log")
          (Sniffer.withSniff
            [{ name := "log", sniffFn := some (fun _ _ => 1) },
             { name := "raw", sniffFn := none }]) = some m
      ∧ Sniffer.sniff_file false
          [{ name := "log", sniffFn := some (fun _ _ => 1) },
           { name := "raw", sniffFn := none }] ["x"] "a.log" = .handler m.name
      ∧ m ∈ Sniffer.withSniff
          [{ name := "log", sniffFn := some (fun _ _ => 1) },
           { name := "raw", sniffFn := none }]
      ∧ ∀ e ∈ Sniffer.withSniff
          [{ name := "log", sniffFn := some (fun _ _ => 1) },
           { name := "raw", sniffFn := none }],
          Sniffer.scoreOf (Sniffer.sampleText ["x"]) "a.log" e
            ≤ Sniffer.scoreOf (Sniffer.sampleText ["x"]) "a.log" m :=
  (C6_sniff_selects_first_maximal
    [{ name := "log", sniffFn := some (fun _ _ => 1) },
     { name := "raw", sniffFn := none }] ["x"] "a.log" [] "s" "f").1
    ⟨{ name := "log", sniffFn := some (fun _ _ => 1) },
     List.mem_cons_self _ _, one_pos⟩


theorem three_tenths_lt_one : (3 : ℚ) / 10 < 1 := by norm_num

/-- Concrete evaluation: between a parser scoring 1 and the 0.3-constant
plaintext fallback, `chooseParser` picks the former. -/
theorem chooseParser_concrete_eval :
    Parsers.chooseParser
      [{ name := "csv", sniff := fun _ _ => 1 },
       { name := "plain", sniff := Parsers.plaintextSniff }] "hello" "b.log"
      = some { name := "csv", sniff := fun _ _ => 1 } := by
  norm_num [Parsers.chooseParser, Parsers.plaintextSniff]

/-- C7 counterexample: a non-empty candidate file consisting of one
whitespace-only line. Its sampled text strips to the empty string, so
`sniff_file` — here with the empty registry, satisfying the claim's
antecedent — returns `None` (→ quarantine), not the raw fallback:
"every non-empty file is ingestible in some form" fails on the code. -/
theorem C7_counterexample_whitespace_only_file :
    Sniffer.sniff_file false [] ["   "] "mystery.bin" = .noMatch
    ∧ ("   " : String) ≠ ""
    ∧ Sniffer.sniff_file false [] ["   "] "mystery.bin" ≠ .rawHandler := by
  refine ⟨by decide, by decide, by decide⟩

/-- C7 amended: (i) `sniff_file` falls back to the raw handler when every
sniffing handler scores ≤ 0 (the registry may be empty) *provided* the
stripped sample text is non-empty — a non-empty file whose sample strips
to empty yields no match and is quarantined (see the counterexample);
(ii) `sniff_best_handler` always falls back to raw when nothing scores
above 0; (iii) the parsers-registry fallback `PlainTextParser.sniff` is
the fixed constant 0.3; (iv) the fallback never wins a genuine contest:
whenever any parser scores above 0.3, the parser `chooseParser` selects
scores above 0.3 as well. -/
theorem C7_amended_raw_fallback (reg : List Sniffer.RegEntry)
    (fileLines : List String) (fname : String)
    (preg : List Parsers.PEntry) (sample2 fname2 : String) :
    ((∀ e ∈ Sniffer.withSniff reg,
        Sniffer.scoreOf (Sniffer.sampleText fileLines) fname e ≤ 0) →
      Sniffer.sampleText fileLines ≠ "" →
      Sniffer.sniff_file false reg fileLines fname = .rawHandler)
    ∧ ((∀ e ∈ Sniffer.withSniff reg, Sniffer.scoreOf sample2 fname e ≤ 0) →
      Sniffer.sniff_best_handler reg sample2 fname = .rawHandler)
    ∧ Parsers.plaintextSniff sample2 fname2 = 3 / 10
    ∧ (∀ p ∈ preg, 3 / 10 < p.sniff sample2 fname2 →
        ∀ m, Parsers.chooseParser preg sample2 fname2 = some m →
          3 / 10 < m.sniff sample2 fname2) := by
  refine ⟨?_, ?_, rfl, ?_⟩
  · intro hall hs
    have hred : Sniffer.sniff_file false reg fileLines fname
        = match Sniffer.sniffLoop (Sniffer.sampleText fileLines) fname reg (none, 0) with
          | (some e, _) => Sniffer.SniffResult.handler e.name
          | (none, _) =>
              if Sniffer.sampleText fileLines ≠ "" then .rawHandler else .noMatch := rfl
    rw [hred, Sniffer.sniffLoop_spec]
    cases hm : Parsers.firstArgmax
        (Sniffer.scoreOf (Sniffer.sampleText fileLines) fname)
        (Sniffer.withSniff reg) with
    | none => simp [hs]
    | some m =>
        have hmle : Sniffer.scoreOf (Sniffer.sampleText fileLines) fname m ≤ 0 :=
          hall m (Parsers.firstArgmax_mem _ _ _ hm)
        simp [hs, not_lt.mpr hmle]
  · intro hall
    have hred : Sniffer.sniff_best_handler reg sample2 fname
        = match Sniffer.sniffLoop sample2 fname reg (none, 0) with
          | (some e, _) => Sniffer.SniffResult.handler e.name
          | (none, _) => .rawHandler := rfl
    rw [hred, Sniffer.sniffLoop_spec]
    cases hm : Parsers.firstArgmax (Sniffer.scoreOf sample2 fname)
        (Sniffer.withSniff reg) with
    | none => simp
    | some m =>
        have hmle : Sniffer.scoreOf sample2 fname m ≤ 0 :=
          hall m (Parsers.firstArgmax_mem _ _ _ hm)
        simp [not_lt.mpr hmle]
  · intro p hp hscore m hm
    have hcp : Parsers.chooseParser preg sample2 fname2
        = Parsers.firstArgmax (fun q => q.sniff sample2 fname2) preg :=
      Parsers.head_insertionSort_eq_firstArgmax
        (fun q : Parsers.PEntry => q.sniff sample2 fname2) preg
    rw [hcp] at hm
    exact lt_of_lt_of_le hscore (Parsers.firstArgmax_le _ _ _ hm p hp)

/-- C7 amended witness: a registry whose only sniffing handler scores 0
falls back to raw for a non-whitespace sample (both sniffing entry
points); the plaintext fallback constant is 0.3; and with a 1-scoring
parser present, the parser `chooseParser` picks scores above 0.3. -/
theorem C7_amended_raw_fallback_witness :
    Sniffer.sniff_file false [{ name := "log", sniffFn := some (fun _ _ => 0) }]
        ["hello"] "b.log" = .rawHandler
    ∧ Sniffer.sniff_best_handler [{ name := "log", sniffFn := some (fun _ _ => 0) }]
        "hello" "b.log" = .rawHandler
    ∧ Parsers.plaintextSniff "hello" "b.log" = 3 / 10
    ∧ 3 / 10 < ({ name := "csv", sniff := fun _ _ => 1 } : Parsers.PEntry).sniff
        "hello" "b.log" :=
  ⟨(C7_amended_raw_fallback [{ name := "log", sniffFn := some (fun _ _ => 0) }]
      ["hello"] "b.log"
      [{ name := "csv", sniff := fun _ _ => 1 },
       { name := "plain", sniff := Parsers.plaintextSniff }] "hello" "b.log").1
      (by decide) (by decide),
   (C7_amended_raw_fallback [{ name := "log", sniffFn := some (fun _ _ => 0) }]
      ["hello"] "b.log"
      [{ name := "csv", sniff := fun _ _ => 1 },
       { name := "plain", sniff := Parsers.plaintextSniff }] "hello" "b.log").2.1
      (by decide),
   (C7_amended_raw_fallback [{ name := "log", sniffFn := some (fun _ _ => 0) }]
      ["hello"] "b.log"
      [{ name := "csv", sniff := fun _ _ => 1 },
       { name := "plain", sniff := Parsers.plaintextSniff }] "hello" "b.log").2.2.1,
   (C7_amended_raw_fallback [{ name := "log", sniffFn := some (fun _ _ => 0) }]
      ["hello"] "b.log"
      [{ name := "csv", sniff := fun _ _ => 1 },
       { name := "plain", sniff := Parsers.plaintextSniff }] "hello" "b.log").2.2.2
      { name := "csv", sniff := fun _ _ => 1 } (List.mem_cons_self _ _)
      three_tenths_lt_one
      { name := "csv", sniff := fun _ _ => 1 } chooseParser_concrete_eval⟩

namespace Watcher

theorem mem_pairedDelete {dir files : List QFile} {g : QFile} :
    g ∈ pairedDelete dir files ↔ g ∈ dir ∧ ¬ g.name ∈ pairedNames files := by
  simp [pairedDelete, List.mem_filter]

theorem strEndsWith_append (x suf : String) : strEndsWith (x ++ suf) suf = true := by
  simp [strEndsWith]

theorem notNote_ne_reasonForm {f : QFile} {s : String}
    (hnote : isReasonNote f = false) : f.name ≠ s ++ ".reason.txt" := by
  intro he
  have hcontra := strEndsWith_append s ".reason.txt"
  rw [← he] at hcontra
  rw [isReasonNote, hcontra] at hnote
  cases hnote

theorem pairedNames_cases {files : List QFile} {s : String}
    (h : s ∈ pairedNames files) :
    (∃ v ∈ files, v.name = s) ∨ ∃ v ∈ files, v.name ++ ".reason.txt" = s := by
  rcases List.mem_append.mp h with h1 | h2
  · obtain ⟨v, hv, he⟩ := List.mem_map.mp h1
    exact Or.inl ⟨v, hv, he⟩
  · obtain ⟨v, hv, he⟩ := List.mem_map.mp h2
    exact Or.inr ⟨v, hv, he⟩

theorem name_mem_pairedNames {files : List QFile} {v : QFile} (hv : v ∈ files) :
    v.name ∈ pairedNames files :=
  List.mem_append.mpr (Or.inl (List.mem_map.mpr ⟨v, hv, rfl⟩))

theorem reason_mem_pairedNames {files : List QFile} {v : QFile} (hv : v ∈ files) :
    v.name ++ ".reason.txt" ∈ pairedNames files :=
  List.mem_append.mpr (Or.inr (List.mem_map.mpr ⟨v, hv, rfl⟩))

/-- Under unique directory names, a non-note file whose name occurs in the
paired-deletion name list of `files ⊆ dir` is itself one of `files`. -/
theorem mem_of_name_in_pairedNames (dir files : List QFile) (f : QFile)
    (hnd : (dir.map QFile.name).Nodup) (hfd : f ∈ dir)
    (hsub : ∀ v ∈ files, v ∈ dir) (hnote : isReasonNote f = false)
    (h : f.name ∈ pairedNames files) : f ∈ files := by
  rcases pairedNames_cases h with ⟨v, hv, he⟩ | ⟨v, hv, he⟩
  · have hvf : v = f :=
      List.inj_on_of_nodup_map hnd (hsub v hv) hfd he
    rw [← hvf]
    exact hv
  · exact absurd he.symm (notNote_ne_reasonForm hnote)

theorem selectOldest_subset (cap : Nat) (size : Int) (l : List QFile) :
    ∀ g ∈ selectOldest cap size l, g ∈ l := by
  induction l generalizing size with
  | nil => intro g hg; simp [selectOldest] at hg
  | cons x xs ih =>
      intro g hg
      by_cases hc : size ≤ (cap : Int)
      · simp [selectOldest, hc] at hg
      · rw [selectOldest, if_neg hc] at hg
        rcases List.mem_cons.mp hg with hgx | hgr
        · simp [hgx]
        · exact List.mem_cons_of_mem _ (ih _ _ hgr)

/-- In an mtime-sorted list, the selection is downward closed for strictly
older files: if `f` is selected, every strictly older member is too. -/
theorem selectOldest_dominance (cap : Nat) (size : Int) (l : List QFile)
    (hs : l.Pairwise (fun a b => a.mtime ≤ b.mtime)) (f g : QFile)
    (hf : f ∈ selectOldest cap size l) (hg : g ∈ l)
    (hlt : g.mtime < f.mtime) : g ∈ selectOldest cap size l := by
  induction l generalizing size with
  | nil => simp [selectOldest] at hf
  | cons x xs ih =>
      by_cases hc : size ≤ (cap : Int)
      · simp [selectOldest, hc] at hf
      · rw [selectOldest, if_neg hc] at hf ⊢
        rcases List.mem_cons.mp hf with hfx | hfr
        · subst hfx
          rcases List.mem_cons.mp hg with hgx | hgs
          · subst hgx
            exact absurd hlt (lt_irrefl _)
          · exact absurd hlt (not_lt.mpr (List.rel_of_pairwise_cons hs hgs))
        · rcases List.mem_cons.mp hg with hgx | hgs
          · subst hgx
            exact List.mem_cons_self _ _
          · exact List.mem_cons_of_mem _
              (ih _ hs.of_cons hfr hgs)

theorem sortByMtime_mem {l : List QFile} {g : QFile} :
    g ∈ sortByMtime l ↔ g ∈ l :=
  (List.perm_insertionSort _ l).mem_iff

theorem sortByMtime_sorted (l : List QFile) :
    (sortByMtime l).Pairwise (fun a b => a.mtime ≤ b.mtime) :=
  List.sorted_insertionSort _ l

end Watcher

/-- C9: quarantine purge never deletes a non-note file younger than the
retention period unless the directory size after the age purge still
exceeds the cap AND every strictly older remaining non-note file is
deleted with it (it is among the oldest remaining); and whenever a
non-note file is deleted (in either phase), no file named
`<its name>.reason.txt` survives the purge. Directory names are unique. -/
theorem C9_quarantine_purge_safety
    (retentionDays maxBytes now : Nat) (dir : List Watcher.QFile)
    (hnd : (dir.map Watcher.QFile.name).Nodup) :
    (∀ f ∈ dir, Watcher.isReasonNote f = false →
      ¬ ((f.mtime : Int) < (now : Int) - (retentionDays : Int) * 86400) →
      f ∉ Watcher.purge_quarantine retentionDays maxBytes now dir →
      ¬ (Watcher.dirSizeBytes (Watcher.afterAgePurge retentionDays now dir) ≤ maxBytes)
      ∧ ∀ g ∈ Watcher.afterAgePurge retentionDays now dir,
          Watcher.isReasonNote g = false → g.mtime < f.mtime →
          g ∉ Watcher.purge_quarantine retentionDays maxBytes now dir)
    ∧ (∀ f ∈ dir, Watcher.isReasonNote f = false →
      f ∉ Watcher.purge_quarantine retentionDays maxBytes now dir →
      ∀ g ∈ Watcher.purge_quarantine retentionDays maxBytes now dir,
        g.name ≠ f.name ++ ".reason.txt") := by
  have hagedsub : ∀ v ∈ Watcher.agedFiles retentionDays now dir, v ∈ dir :=
    fun v hv => (List.mem_filter.mp hv).1
  have hAsub : ∀ v ∈ Watcher.afterAgePurge retentionDays now dir, v ∈ dir :=
    fun v hv => (Watcher.mem_pairedDelete.mp hv).1
  have hvicsub : ∀ v ∈ Watcher.sizeCapVictims maxBytes
      (Watcher.afterAgePurge retentionDays now dir),
      v ∈ Watcher.afterAgePurge retentionDays now dir := by
    intro v hv
    rw [Watcher.sizeCapVictims] at hv
    have h1 := Watcher.selectOldest_subset _ _ _ v hv
    have h2 := Watcher.sortByMtime_mem.mp h1
    exact (List.mem_filter.mp h2).1
  have hstepA : ∀ f ∈ dir, Watcher.isReasonNote f = false →
      ¬ ((f.mtime : Int) < (now : Int) - (retentionDays : Int) * 86400) →
      f ∈ Watcher.afterAgePurge retentionDays now dir := by
    intro f hf hnote hyoung
    rw [Watcher.afterAgePurge, Watcher.mem_pairedDelete]
    refine ⟨hf, fun hmem => ?_⟩
    have hfin := Watcher.mem_of_name_in_pairedNames dir _ f hnd hf hagedsub hnote hmem
    have hcond := (List.mem_filter.mp hfin).2
    simp [hnote] at hcond
    exact hyoung hcond
  constructor
  · intro f hf hnote hyoung hdel
    have hfA := hstepA f hf hnote hyoung
    by_cases hcap : Watcher.dirSizeBytes
        (Watcher.afterAgePurge retentionDays now dir) ≤ maxBytes
    · exfalso
      apply hdel
      rw [Watcher.purge_quarantine]
      simp only [if_pos hcap]
      exact hfA
    · have hpurge : Watcher.purge_quarantine retentionDays maxBytes now dir
          = Watcher.pairedDelete (Watcher.afterAgePurge retentionDays now dir)
              (Watcher.sizeCapVictims maxBytes
                (Watcher.afterAgePurge retentionDays now dir)) := by
        rw [Watcher.purge_quarantine]
        simp only [if_neg hcap]
      refine ⟨hcap, ?_⟩
      have hfnames : f.name ∈ Watcher.pairedNames (Watcher.sizeCapVictims maxBytes
          (Watcher.afterAgePurge retentionDays now dir)) := by
        by_contra hnn
        exact hdel (by rw [hpurge]; exact Watcher.mem_pairedDelete.mpr ⟨hfA, hnn⟩)
      have hfvic : f ∈ Watcher.sizeCapVictims maxBytes
          (Watcher.afterAgePurge retentionDays now dir) :=
        Watcher.mem_of_name_in_pairedNames dir _ f hnd hf
          (fun v hv => hAsub v (hvicsub v hv)) hnote hfnames
      intro g hg hgnote hglt hgin
      have hgsorted : g ∈ Watcher.sortByMtime
          ((Watcher.afterAgePurge retentionDays now dir).filter
            (fun x => !Watcher.isReasonNote x)) :=
        Watcher.sortByMtime_mem.mpr (List.mem_filter.mpr ⟨hg, by simp [hgnote]⟩)
      rw [Watcher.sizeCapVictims] at hfvic
      have hgvic : g ∈ Watcher.sizeCapVictims maxBytes
          (Watcher.afterAgePurge retentionDays now dir) := by
        rw [Watcher.sizeCapVictims]
        exact Watcher.selectOldest_dominance _ _ _
          (Watcher.sortByMtime_sorted _) f g hfvic hgsorted hglt
      rw [hpurge] at hgin
      exact (Watcher.mem_pairedDelete.mp hgin).2 (Watcher.name_mem_pairedNames hgvic)
  · intro f hf hnote hdel g hg
    by_cases hfA : f ∈ Watcher.afterAgePurge retentionDays now dir
    · by_cases hcap : Watcher.dirSizeBytes
          (Watcher.afterAgePurge retentionDays now dir) ≤ maxBytes
      · exfalso
        apply hdel
        rw [Watcher.purge_quarantine]
        simp only [if_pos hcap]
        exact hfA
      · have hpurge : Watcher.purge_quarantine retentionDays maxBytes now dir
            = Watcher.pairedDelete (Watcher.afterAgePurge retentionDays now dir)
                (Watcher.sizeCapVictims maxBytes
                  (Watcher.afterAgePurge retentionDays now dir)) := by
          rw [Watcher.purge_quarantine]
          simp only [if_neg hcap]
        have hfnames : f.name ∈ Watcher.pairedNames (Watcher.sizeCapVictims maxBytes
            (Watcher.afterAgePurge retentionDays now dir)) := by
          by_contra hnn
          exact hdel (by rw [hpurge]; exact Watcher.mem_pairedDelete.mpr ⟨hfA, hnn⟩)
        have hfvic : f ∈ Watcher.sizeCapVictims maxBytes
            (Watcher.afterAgePurge retentionDays now dir) :=
          Watcher.mem_of_name_in_pairedNames dir _ f hnd hf
            (fun v hv => hAsub v (hvicsub v hv)) hnote hfnames
        rw [hpurge] at hg
        intro he
        exact (Watcher.mem_pairedDelete.mp hg).2
          (he ▸ Watcher.reason_mem_pairedNames hfvic)
    · have hfnames : f.name ∈ Watcher.pairedNames
          (Watcher.agedFiles retentionDays now dir) := by
        by_contra hnn
        exact hfA (by rw [Watcher.afterAgePurge]
                      exact Watcher.mem_pairedDelete.mpr ⟨hf, hnn⟩)
      have hfaged : f ∈ Watcher.agedFiles retentionDays now dir :=
        Watcher.mem_of_name_in_pairedNames dir _ f hnd hf hagedsub hnote hfnames
      have hgA : g ∈ Watcher.afterAgePurge retentionDays now dir := by
        by_cases hcap : Watcher.dirSizeBytes
            (Watcher.afterAgePurge retentionDays now dir) ≤ maxBytes
        · rw [Watcher.purge_quarantine] at hg
          simp only [if_pos hcap] at hg
          exact hg
        · rw [Watcher.purge_quarantine] at hg
          simp only [if_neg hcap] at hg
          exact (Watcher.mem_pairedDelete.mp hg).1
      rw [Watcher.afterAgePurge] at hgA
      intro he
      exact (Watcher.mem_pairedDelete.mp hgA).2
        (he ▸ Watcher.reason_mem_pairedNames hfaged)

/-- C9 witness: a concrete one-file quarantine directory with unique
names; the protective properties hold at this instance. -/
theorem C9_quarantine_purge_safety_witness :
    (∀ f ∈ [({ name := "a.log", mtime := 1000, size := 5 } : Watcher.QFile)],
      Watcher.isReasonNote f = false →
      ¬ ((f.mtime : Int) < (1000 : Int) - (7 : Int) * 86400) →
      f ∉ Watcher.purge_quarantine 7 100 1000
            [{ name := "a.log", mtime := 1000, size := 5 }] →
      ¬ (Watcher.dirSizeBytes (Watcher.afterAgePurge 7 1000
            [{ name := "a.log", mtime := 1000, size := 5 }]) ≤ 100)
      ∧ ∀ g ∈ Watcher.afterAgePurge 7 1000
            [{ name := "a.log", mtime := 1000, size := 5 }],
          Watcher.isReasonNote g = false → g.mtime < f.mtime →
          g ∉ Watcher.purge_quarantine 7 100 1000
                [{ name := "a.log", mtime := 1000, size := 5 }])
    ∧ (∀ f ∈ [({ name := "a.log", mtime := 1000, size := 5 } : Watcher.QFile)],
      Watcher.isReasonNote f = false →
      f ∉ Watcher.purge_quarantine 7 100 1000
            [{ name := "a.log", mtime := 1000, size := 5 }] →
      ∀ g ∈ Watcher.purge_quarantine 7 100 1000
            [{ name := "a.log", mtime := 1000, size := 5 }],
        g.name ≠ f.name ++ ".reason.txt") :=
  C9_quarantine_purge_safety 7 100 1000
    [{ name := "a.log", mtime := 1000, size := 5 }] (by decide)

namespace Watcher

/-- Marking a freshly appended row (its id unused in the manifest) updates
exactly that row. -/
theorem file_manifest_mark_append (manifest : List ManifestRow)
    (row : ManifestRow) (fid : Nat) (status : ManifestStatus)
    (hrow : row.id = fid) (hid : ∀ r ∈ manifest, r.id ≠ fid) :
    file_manifest_mark (manifest ++ [row]) fid status
      = manifest ++ [if status = ManifestStatus.committed
          then { row with status := status, ingestedSet := true }
          else { row with status := status }] := by
  rw [file_manifest_mark, List.map_append]
  congr 1
  · conv_rhs => rw [← List.map_id manifest]
    apply List.map_congr_left
    intro r hr
    simp [hid r hr]
  · simp [hrow]

/-- The non-duplicate run of `process_one_file`: insert the manifest row,
insert one event row per line, mark committed (setting `ingested_at`),
unlink, mark deleted. -/
theorem process_one_file_fresh (host app relPath : String) (st : IntakeState)
    (content : List Nat)
    (hfresh : file_manifest_has_sha st.manifest (Sha256.hexdigest content) = false)
    (hid : ∀ r ∈ st.manifest, r.id ≠ st.nextId) :
    process_one_file host app st relPath content
      = ({ manifest := st.manifest ++
            [{ id := st.nextId, relPath := relPath,
               sha256 := Sha256.hexdigest content, bytes := content.length,
               sourceHost := host, sourceApp := app,
               status := .deleted, ingestedSet := true }],
           events := st.events ++ buildRows st.nextId (splitChunks content),
           nextId := st.nextId + 1, quarantine := st.quarantine },
         .committedDeleted) := by
  have h1 := file_manifest_mark_append st.manifest
    { id := st.nextId, relPath := relPath, sha256 := Sha256.hexdigest content,
      bytes := content.length, sourceHost := host, sourceApp := app,
      status := .processing, ingestedSet := false }
    st.nextId ManifestStatus.committed rfl hid
  simp only [reduceIte] at h1
  have h2 := file_manifest_mark_append st.manifest
    { id := st.nextId, relPath := relPath, sha256 := Sha256.hexdigest content,
      bytes := content.length, sourceHost := host, sourceApp := app,
      status := .committed, ingestedSet := true }
    st.nextId ManifestStatus.deleted rfl hid
  rw [if_neg (by decide : ManifestStatus.deleted ≠ ManifestStatus.committed)] at h2
  simp only [process_one_file, hfresh, Bool.false_eq_true, if_false, h1, h2]

end Watcher

/-- C1 counterexample: an empty file — the canonical zero-parsed-events
input — processed from an empty store. The outcome is committed-and-
deleted: no event rows, an untouched (empty) quarantine, and a manifest
row that reached `committed` (`ingested_at` set) before its final
`deleted` status. The claim's quarantine-with-reason and error-marking do
not happen. -/
theorem C1_counterexample_empty_file_committed :
    (Watcher.process_one_file "h" "a"
        { manifest := [], events := [], nextId := 0, quarantine := [] } "f" []).2
      = .committedDeleted
    ∧ (Watcher.process_one_file "h" "a"
        { manifest := [], events := [], nextId := 0, quarantine := [] } "f" []).1.events
      = []
    ∧ (Watcher.process_one_file "h" "a"
        { manifest := [], events := [], nextId := 0, quarantine := [] } "f" []).1.quarantine
      = []
    ∧ ((Watcher.process_one_file "h" "a"
        { manifest := [], events := [], nextId := 0, quarantine := [] } "f" []).1.manifest.map
          (fun r => (r.status, r.ingestedSet)))
      = [(Watcher.ManifestStatus.deleted, true)] := by
  refine ⟨rfl, rfl, rfl, rfl⟩

/-- C1 amended: a file that produces zero parsed events (the empty file —
the line loop emits one row per line, so zero events means zero lines) is
*committed*, not quarantined: `process_one_file` inserts its FileRecord,
marks it `committed` (setting `ingested_at`), deletes the file, and ends
with status `deleted`; the event table and the quarantine directory are
unchanged, and the FileRecord is never marked `error`. Quarantine with a
reason — and the `error` mark — happen only when an exception is raised
during processing. -/
theorem C1_amended_zero_events_committed (host app relPath : String)
    (st : Watcher.IntakeState)
    (hfresh : Watcher.file_manifest_has_sha st.manifest (Sha256.hexdigest []) = false)
    (hid : ∀ r ∈ st.manifest, r.id ≠ st.nextId) :
    Watcher.process_one_file host app st relPath []
      = ({ manifest := st.manifest ++
            [{ id := st.nextId, relPath := relPath,
               sha256 := Sha256.hexdigest [], bytes := 0,
               sourceHost := host, sourceApp := app,
               status := .deleted, ingestedSet := true }],
           events := st.events, nextId := st.nextId + 1,
           quarantine := st.quarantine },
         .committedDeleted) := by
  rw [Watcher.process_one_file_fresh host app relPath st [] hfresh hid]
  simp [Watcher.buildRows, Watcher.splitChunks, Watcher.splitChunksAux]

/-- C1 amended witness: the empty file over the empty store. -/
theorem C1_amended_zero_events_committed_witness :
    Watcher.process_one_file "h" "a"
        { manifest := [], events := [], nextId := 0, quarantine := [] } "f" []
      = ({ manifest :=
            [{ id := 0, relPath := "f", sha256 := Sha256.hexdigest [], bytes := 0,
               sourceHost := "h", sourceApp := "a",
               status := .deleted, ingestedSet := true }],
           events := [], nextId := 1, quarantine := [] },
         .committedDeleted) :=
  C1_amended_zero_events_committed "h" "a" "f"
    { manifest := [], events := [], nextId := 0, quarantine := [] }
    (by decide) (by decide)

/-- C2: whole-file deduplication. (i) If a FileRecord with the incoming
file's SHA-256 digest exists and is committed, `process_one_file` deletes
the new file immediately — state unchanged: no manifest insert, no event
row inserted, nothing parsed. (ii) Submitting the same byte content twice
(digest initially absent, fresh id) commits exactly one FileRecord: after
both runs, exactly one manifest row carries the digest, it reached
`committed` (`ingested_at` set, final status `deleted`), and the second
run returns duplicate-dropped leaving the state untouched. -/
theorem C2_file_dedup (host app relPath relPath2 : String)
    (st : Watcher.IntakeState) (content : List Nat) :
    ((∃ r ∈ st.manifest, r.sha256 = Sha256.hexdigest content
        ∧ r.status = Watcher.ManifestStatus.committed) →
      Watcher.process_one_file host app st relPath content = (st, .dupDeleted))
    ∧ (Watcher.file_manifest_has_sha st.manifest (Sha256.hexdigest content) = false →
      (∀ r ∈ st.manifest, r.id ≠ st.nextId) →
      (Watcher.process_one_file host app
          (Watcher.process_one_file host app st relPath content).1 relPath2 content
        = ((Watcher.process_one_file host app st relPath content).1, .dupDeleted))
      ∧ (((Watcher.process_one_file host app st relPath content).1.manifest.filter
            (fun r => r.sha256 == Sha256.hexdigest content)).map
            (fun r => (r.status, r.ingestedSet)))
          = [(Watcher.ManifestStatus.deleted, true)]) := by
  constructor
  · rintro ⟨r, hr, hsha, _⟩
    have hhas : Watcher.file_manifest_has_sha st.manifest
        (Sha256.hexdigest content) = true := by
      rw [Watcher.file_manifest_has_sha]
      exact List.any_eq_true.mpr ⟨r, hr, by simp [hsha]⟩
    simp [Watcher.process_one_file, hhas]
  · intro hfresh hid
    rw [Watcher.process_one_file_fresh host app relPath st content hfresh hid]
    have hnomatch : ∀ a ∈ st.manifest, ¬ (a.sha256 == Sha256.hexdigest content) = true := by
      intro a ha hbeq
      have : st.manifest.any (fun r => r.sha256 == Sha256.hexdigest content) = true :=
        List.any_eq_true.mpr ⟨a, ha, hbeq⟩
      rw [Watcher.file_manifest_has_sha] at hfresh
      rw [hfresh] at this
      cases this
    constructor
    · have hhas2 : Watcher.file_manifest_has_sha
          (st.manifest ++
            [{ id := st.nextId, relPath := relPath,
               sha256 := Sha256.hexdigest content, bytes := content.length,
               sourceHost := host, sourceApp := app,
               status := .deleted, ingestedSet := true }])
          (Sha256.hexdigest content) = true := by
        simp [Watcher.file_manifest_has_sha]
      simp [Watcher.process_one_file, hhas2]
    · simp only [List.filter_append, List.map_append]
      rw [List.filter_eq_nil_iff.mpr hnomatch]
      simp

/-- C2 witness: the single-byte file `[97]` submitted twice from the empty
store: the second submission is duplicate-dropped with the state
unchanged, and exactly one FileRecord carries the digest, having reached
`committed`. -/
theorem C2_file_dedup_witness :
    (Watcher.process_one_file "h" "a"
        (Watcher.process_one_file "h" "a"
          { manifest := [], events := [], nextId := 0, quarantine := [] }
          "f" [97]).1 "g" [97]
      = ((Watcher.process_one_file "h" "a"
          { manifest := [], events := [], nextId := 0, quarantine := [] }
          "f" [97]).1, .dupDeleted))
    ∧ (((Watcher.process_one_file "h" "a"
          { manifest := [], events := [], nextId := 0, quarantine := [] }
          "f" [97]).1.manifest.filter
            (fun r => r.sha256 == Sha256.hexdigest [97])).map
            (fun r => (r.status, r.ingestedSet)))
        = [(Watcher.ManifestStatus.deleted, true)] :=
  (C2_file_dedup "h" "a" "f" "g"
    { manifest := [], events := [], nextId := 0, quarantine := [] } [97]).2
    (by decide) (by decide)
